import Mathlib

/-!
# Verification of the data-radar dolma wrapper

A shallow embedding, in Lean 4, of the text-processing and download/orchestration
code of the `dr-llm-train-data-processor` repository
(`src/data_radar_dolma_wrapper/processing.py` and
`src/data_radar_dolma_wrapper/downloader.py`), together with theorems settling
the specification's claims about that code.

Conventions of the embedding:
* Python strings that flow through the text pipeline are `List Char`
  (one entry per code point, as in Python); short identifier-like strings are `String`.
* Python `dict` values are association lists in insertion order, as Python
  dictionaries are ordered; `dict.get` is lookup on those lists.
* External libraries (`unicodedata.normalize`, the dolma tagger) are parameters
  of the embedded functions; `hashlib.sha1` is embedded by implementing the
  published SHA-1 algorithm.
* Fallible code returns `Except`.
-/

/-- The set of characters Python's `str` whitespace notion (`\s` in `re`,
`str.strip`) recognises, by code point. -/
def pyIsSpace (c : Char) : Bool :=
  c.toNat ∈ [0x9, 0xA, 0xB, 0xC, 0xD, 0x1C, 0x1D, 0x1E, 0x1F, 0x20, 0x85, 0xA0,
    0x1680, 0x2000, 0x2001, 0x2002, 0x2003, 0x2004, 0x2005, 0x2006, 0x2007,
    0x2008, 0x2009, 0x200A, 0x2028, 0x2029, 0x202F, 0x205F, 0x3000]

/-- The NUL character stripped by `normalize_text`. -/
def nulChar : Char := Char.ofNat 0

/-- Helper for `wsSub`: the Boolean records whether the previous character was
whitespace (in which case the current run's single replacement space has
already been emitted). -/
def wsSubAux : Bool → List Char → List Char
  | _, [] => []
  | prevWs, c :: rest =>
    if pyIsSpace c then
      (if prevWs then ([] : List Char) else [' ']) ++ wsSubAux true rest
    else c :: wsSubAux false rest

/-- `re.sub(r"\s+", " ", s)`: replace every maximal run of whitespace with a
single ASCII space. -/
def wsSub (s : List Char) : List Char := wsSubAux false s

/-- Python `str.strip()`: drop leading and trailing whitespace. -/
def pyStrip (s : List Char) : List Char :=
  ((s.dropWhile pyIsSpace).reverse.dropWhile pyIsSpace).reverse

/-- `s.replace("\x00", "")`. -/
def stripNul (s : List Char) : List Char := s.filter (fun c => c ≠ nulChar)

/-- Python `str.lower()` restricted to ASCII, enough for the
`unicode_form.lower() != "none"` test in `normalize_text`. -/
def pyLowerAscii (s : String) : String := String.mk (s.toList.map Char.toLower)

/-- The `unicode_form`-guarded `unicodedata.normalize` step of
`normalize_text`: applied only when `unicode_form` is non-empty and not the
literal `"none"` case-insensitively. -/
def unormStep (unicodedataNormalize : String → List Char → List Char)
    (unicode_form : String) (text : List Char) : List Char :=
  if unicode_form ≠ "" ∧ pyLowerAscii unicode_form ≠ "none" then
    unicodedataNormalize unicode_form text
  else text

/-- `normalize_text(text, unicode_form, collapse_whitespace)` from
`processing.py`.  The external `unicodedata.normalize` is a parameter
`unicodedataNormalize` mapping a form name and a string to the normalised
string; the `text is None` branch does not arise for a `List Char` input. -/
def normalize_text (unicodedataNormalize : String → List Char → List Char)
    (unicode_form : String) (collapse_whitespace : Bool) (text : List Char) :
    List Char :=
  let text := unormStep unicodedataNormalize unicode_form text
  let text := stripNul text
  if collapse_whitespace then pyStrip (wsSub text) else text

/-- The sort key order of `sorted(spans, key=lambda x: (x[0], x[1]))`:
lexicographic on `(start, end)`. -/
def spanKeyLE (a b : Nat × Nat) : Prop := a.1 < b.1 ∨ (a.1 = b.1 ∧ a.2 ≤ b.2)

instance : DecidableRel spanKeyLE := fun _ _ =>
  inferInstanceAs (Decidable (_ ∨ _))

instance : IsTotal (Nat × Nat) spanKeyLE where
  total a b := by
    rcases Nat.lt_trichotomy a.1 b.1 with h | h | h
    · exact Or.inl (Or.inl h)
    · rcases Nat.le_total a.2 b.2 with h2 | h2
      · exact Or.inl (Or.inr ⟨h, h2⟩)
      · exact Or.inr (Or.inr ⟨h.symm, h2⟩)
    · exact Or.inr (Or.inl h)

instance : IsTrans (Nat × Nat) spanKeyLE where
  trans a b c hab hbc := by
    rcases hab with h | ⟨he, h2⟩ <;> rcases hbc with h' | ⟨he', h2'⟩
    · exact Or.inl (h.trans h')
    · exact Or.inl (he' ▸ h)
    · exact Or.inl (he ▸ h')
    · exact Or.inr ⟨he.trans he', h2.trans h2'⟩

/-- `sorted(spans, key=lambda x: (x[0], x[1]))`. -/
def sortSpans (spans : List (Nat × Nat)) : List (Nat × Nat) :=
  spans.insertionSort spanKeyLE

/-- One iteration of the `_merge_spans` loop body: skip empty spans, append a
span starting past the running span's end, otherwise extend the running
(last) span. -/
def mergeStep (merged : List (Nat × Nat)) (x : Nat × Nat) : List (Nat × Nat) :=
  if x.2 ≤ x.1 then merged
  else
    match merged.getLast? with
    | none => merged ++ [x]
    | some last =>
      if last.2 < x.1 then merged ++ [x]
      else merged.dropLast ++ [(last.1, max last.2 x.2)]

/-- `_merge_spans(spans)` from `processing.py`. -/
def _merge_spans (spans : List (Nat × Nat)) : List (Nat × Nat) :=
  (sortSpans spans).foldl mergeStep []

/-- Python slice `text[a:b]` (for `0 ≤ a ≤ b`, with clamping past the end). -/
def pySlice (text : List Char) (a b : Nat) : List Char :=
  (text.drop a).take (b - a)

/-- One iteration of the `mask_spans` output loop: `out`/`cur` state, appending
the untouched gap before the span (when non-empty) and then the mask token. -/
def maskStep (text mask_token : List Char) (st : List (List Char) × Nat)
    (x : Nat × Nat) : List (List Char) × Nat :=
  let out := if st.2 < x.1 then st.1 ++ [pySlice text st.2 x.1] else st.1
  (out ++ [mask_token], x.2)

/-- `mask_spans(text, spans, mask_token)` from `processing.py`: builds the list
of output pieces exactly as the source loop does, then joins them. -/
def mask_spans (text : List Char) (spans : List (Nat × Nat))
    (mask_token : List Char) : List Char :=
  let merged := _merge_spans spans
  if merged = [] then text
  else
    let res := merged.foldl (maskStep text mask_token) ([], 0)
    (if res.2 < text.length then res.1 ++ [text.drop res.2] else res.1).flatten

/-- Merge the spans of a sorted list into the running span `(s, e)`,
emitting the running span whenever the next valid span starts past its end.
Equivalent to the `foldl`-over-`mergeStep` form (`merge_spans_eq_mergeSorted`). -/
def mergeInto (s e : Nat) : List (Nat × Nat) → List (Nat × Nat)
  | [] => [(s, e)]
  | (s2, e2) :: rest =>
    if e2 ≤ s2 then mergeInto s e rest
    else if e < s2 then (s, e) :: mergeInto s2 e2 rest
    else mergeInto s (max e e2) rest

/-- Skip invalid spans until the first valid one, then `mergeInto`. -/
def mergeSorted : List (Nat × Nat) → List (Nat × Nat)
  | [] => []
  | (s, e) :: rest => if e ≤ s then mergeSorted rest else mergeInto s e rest

/-- Character position `p` lies inside some span of `l`. -/
def covers (l : List (Nat × Nat)) (p : Nat) : Prop :=
  ∃ x ∈ l, x.1 ≤ p ∧ p < x.2

/-- Character position `p` lies inside some *valid* (non-empty) span of `l`. -/
def validCovers (l : List (Nat × Nat)) (p : Nat) : Prop :=
  ∃ x ∈ l, x.1 < x.2 ∧ x.1 ≤ p ∧ p < x.2

/-- An ordered list of non-empty, pairwise disjoint, non-adjacent spans:
every span is valid and each span ends strictly before the next begins. -/
def ChainSpans (l : List (Nat × Nat)) : Prop :=
  (∀ x ∈ l, x.1 < x.2) ∧ l.Chain' (fun a b => a.2 < b.1)

/-- Specification-level rendering of a masked text from a merged span list:
for each span, the untouched characters from the cursor up to the span's
start, then the mask token in place of the span; after the last span, the
untouched remainder. -/
def maskRender (text tok : List Char) : Nat → List (Nat × Nat) → List Char
  | cur, [] => text.drop cur
  | cur, (s, e) :: rest => pySlice text cur s ++ (tok ++ maskRender text tok e rest)

/-- 32-bit left rotation. -/
def rotl32 (n x : Nat) : Nat := ((x <<< n) % 4294967296) ||| (x >>> (32 - n))

/-- The SHA-1 round function for round `t`. -/
def sha1F (t b c d : Nat) : Nat :=
  if t < 20 then Nat.lor (Nat.land b c) (Nat.land (Nat.xor b 4294967295) d)
  else if t < 40 then Nat.xor (Nat.xor b c) d
  else if t < 60 then Nat.lor (Nat.lor (Nat.land b c) (Nat.land b d)) (Nat.land c d)
  else Nat.xor (Nat.xor b c) d

/-- The SHA-1 round constant for round `t`. -/
def sha1K (t : Nat) : Nat :=
  if t < 20 then 0x5A827999 else if t < 40 then 0x6ED9EBA1
  else if t < 60 then 0x8F1BBCDC else 0xCA62C1D6

/-- Extend the 16 message-schedule words by `k` more words. -/
def sha1Expand : List Nat → Nat → List Nat
  | w, 0 => w
  | w, k + 1 =>
    let n := w.length
    sha1Expand (w ++ [rotl32 1 (Nat.xor (Nat.xor (w.getD (n - 3) 0) (w.getD (n - 8) 0))
      (Nat.xor (w.getD (n - 14) 0) (w.getD (n - 16) 0)))]) k

/-- One SHA-1 round on the `(a, b, c, d, e)` state. -/
def sha1Round (st : Nat × Nat × Nat × Nat × Nat) (tw : Nat × Nat) :
    Nat × Nat × Nat × Nat × Nat :=
  match st, tw with
  | (a, b, c, d, e), (t, w) =>
    ((rotl32 5 a + sha1F t b c d + e + sha1K t + w) % 4294967296, a, rotl32 30 b, c, d)

/-- Big-endian grouping of bytes into 32-bit words. -/
def bytesToWords : List Nat → List Nat
  | b0 :: b1 :: b2 :: b3 :: rest =>
    (b0 * 16777216 + b1 * 65536 + b2 * 256 + b3) :: bytesToWords rest
  | _ => []

/-- Process one 64-byte block. -/
def sha1Block (h : Nat × Nat × Nat × Nat × Nat) (block : List Nat) :
    Nat × Nat × Nat × Nat × Nat :=
  let w := sha1Expand (bytesToWords block) 64
  match h, ((List.range 80).zip w).foldl sha1Round h with
  | (h0, h1, h2, h3, h4), (a, b, c, d, e) =>
    ((h0 + a) % 4294967296, (h1 + b) % 4294967296, (h2 + c) % 4294967296,
     (h3 + d) % 4294967296, (h4 + e) % 4294967296)

/-- Split a byte string into 64-byte chunks. -/
def chunksOf64 : List Nat → List (List Nat)
  | [] => []
  | x :: xs => ((x :: xs).take 64) :: chunksOf64 (xs.drop 63)
termination_by l => l.length
decreasing_by
  simp only [List.length_drop, List.length_cons]
  omega

/-- SHA-1 padding: `0x80`, zeros to 56 mod 64, then the bit length big-endian. -/
def sha1Pad (msg : List Nat) : List Nat :=
  let len := msg.length
  let bitlen := len * 8
  let zeros := (120 - (len + 1) % 64) % 64
  msg ++ [0x80] ++ List.replicate zeros 0 ++
    ((List.range 8).map (fun k => (bitlen >>> (8 * (7 - k))) % 256))

/-- SHA-1 of a byte string, as the five 32-bit state words. -/
def sha1Words (msg : List Nat) : Nat × Nat × Nat × Nat × Nat :=
  (chunksOf64 (sha1Pad msg)).foldl sha1Block
    (0x67452301, 0xEFCDAB89, 0x98BADCFE, 0x10325476, 0xC3D2E1F0)

/-- Lowercase hexadecimal digit. -/
def toHexDigit (n : Nat) : Char :=
  if n < 10 then Char.ofNat (48 + n) else Char.ofNat (87 + n)

/-- Eight lowercase hex digits of a 32-bit word, most significant first. -/
def wordToHex (w : Nat) : List Char :=
  (List.range 8).map (fun i => toHexDigit ((w >>> (4 * (7 - i))) % 16))

/-- `hashlib.sha1(msg).hexdigest()`: the lowercase 40-character hex digest. -/
def sha1Hex (msg : List Nat) : String :=
  match sha1Words msg with
  | (h0, h1, h2, h3, h4) =>
    String.mk (wordToHex h0 ++ wordToHex h1 ++ wordToHex h2 ++ wordToHex h3 ++
      wordToHex h4)

/-- UTF-8 encoding of one code point (Lean `Char` excludes surrogates, so the
`errors="ignore"` branch of `str.encode` never fires). -/
def utf8Bytes (c : Char) : List Nat :=
  let n := c.toNat
  if n < 0x80 then [n]
  else if n < 0x800 then [0xC0 ||| (n >>> 6), 0x80 ||| (n &&& 0x3F)]
  else if n < 0x10000 then
    [0xE0 ||| (n >>> 12), 0x80 ||| ((n >>> 6) &&& 0x3F), 0x80 ||| (n &&& 0x3F)]
  else
    [0xF0 ||| (n >>> 18), 0x80 ||| ((n >>> 12) &&& 0x3F),
     0x80 ||| ((n >>> 6) &&& 0x3F), 0x80 ||| (n &&& 0x3F)]

/-- UTF-8 encoding of a string. -/
def utf8Encode (s : List Char) : List Nat := (s.map utf8Bytes).flatten

/-- `stable_id(*parts)` from `processing.py`: SHA-1 over the UTF-8 encoding of
each non-`None` part, a NUL byte after every part, lowercase hex digest. -/
def stable_id (parts : List (Option (List Char))) : String :=
  sha1Hex (parts.foldl (fun acc p =>
    match p with
    | none => acc
    | some s => acc ++ utf8Encode s ++ [0]) [])

/-- The Python values that can appear in upstream record fields relevant to
`_build_doc`: `None`, booleans, integers and strings. -/
inductive PVal where
  | none
  | bool (b : Bool)
  | int (n : Int)
  | str (s : String)
deriving DecidableEq

/-- Python truthiness of a `PVal`. -/
def truthy : PVal → Bool
  | PVal.none => false
  | PVal.bool b => b
  | PVal.int n => n != 0
  | PVal.str s => s != ""

/-- Python `str(v)`. -/
def pyStr : PVal → String
  | PVal.none => "None"
  | PVal.bool true => "True"
  | PVal.bool false => "False"
  | PVal.int n => toString n
  | PVal.str s => s

/-- Python `a or b` on record field values (returns `a` when truthy, else `b`). -/
def pyOr (a b : PVal) : PVal := if truthy a then a else b

/-- An upstream record: an association list in insertion order, as a Python
dict.  `record.get(k)` is `(List.lookup k record).getD PVal.none`. -/
abbrev PyRecord := List (String × PVal)

/-- JSON-like metadata values (nested dictionaries allowed). -/
inductive MVal where
  | bool (b : Bool)
  | int (n : Int)
  | str (s : String)
  | dict (d : List (String × MVal))

/-- A metadata dictionary: an association list in insertion order. -/
abbrev MDict := List (String × MVal)

/-- Python `d[k] = v` on an insertion-ordered dict: update the existing key in
place, else append. -/
def dictSet (d : MDict) (k : String) (v : MVal) : MDict :=
  match d with
  | [] => [(k, v)]
  | (k2, v2) :: rest => if k2 = k then (k, v) :: rest else (k2, v2) :: dictSet rest k v

/-- Python `{**a, **b}`: start from `a`, then write each of `b`'s entries. -/
def pyDictMerge (a b : MDict) : MDict :=
  b.foldl (fun acc kv => dictSet acc kv.1 kv.2) a

/-- The document record shape produced by `_build_doc`. -/
structure Doc where
  id : String
  text : List Char
  source : String
  created : PVal
  added : PVal
  version : PVal
  metadata : MDict

/-- The dataset configuration fields `_build_doc` and `process_stream` read,
with the defaults the code applies at the `dict.get` use sites. -/
structure DatasetCfg where
  text_field : String := "text"
  metadata : MDict := []

/-- `processing.normalize` block with its `dict.get` defaults. -/
structure NormalizeCfg where
  enabled : Bool := true
  unicode_form : String := "NFC"
  collapse_whitespace : Bool := true

/-- `processing.dolma_toolkit` block with its `dict.get` defaults. -/
structure DolmaCfg where
  enabled : Bool := false
  pii_tagger : String := "pii_regex_v2"
  mask_token : List Char := "<PII>".toList

/-- `processing` block with its `dict.get` defaults. -/
structure ProcessingCfg where
  enabled : Bool := false
  normalize : NormalizeCfg := {}
  dolma_toolkit : DolmaCfg := {}
  metadata : MDict := []

/-- `_build_doc(dataset_name, record, dcfg, extra_metadata)` from
`downloader.py`. -/
def _build_doc (dataset_name : String) (record : PyRecord) (dcfg : DatasetCfg)
    (extra_metadata : MDict) : Doc :=
  let raw_text := (List.lookup dcfg.text_field record).getD (PVal.str "")
  let text : List Char := (match raw_text with
    | PVal.str s => s
    | v => pyStr v).toList
  let upstream := pyOr ((List.lookup "id" record).getD PVal.none)
    (pyOr ((List.lookup "_id" record).getD PVal.none)
      ((List.lookup "doc_id" record).getD PVal.none))
  let doc_id := match upstream with
    | PVal.none => stable_id [some dataset_name.toList, some text]
    | v => pyStr v
  { id := doc_id
    text := text
    source := dataset_name
    created := (List.lookup "created" record).getD (PVal.str "")
    added := (List.lookup "added" record).getD (PVal.str "")
    version := (List.lookup "version" record).getD PVal.none
    metadata := if extra_metadata.isEmpty then [] else extra_metadata }

/-- `ProcessingPipeline.process_doc` from `downloader.py`.  The external
pieces are parameters: `unicodedataNormalize` embeds `unicodedata.normalize`
and `tag` embeds masker construction plus `find_pii_spans` for a tagger name,
doc id, text and source — a `.error` result embeds any exception raised inside
the `try` block, which the code catches and records in the document's own
metadata. -/
def process_doc (unicodedataNormalize : String → List Char → List Char)
    (tag : String → String → List Char → String → Except String (List (Nat × Nat)))
    (pcfg : ProcessingCfg) (doc : Doc) : Doc :=
  if ¬ pcfg.enabled then doc
  else
    let doc := if pcfg.normalize.enabled then
      { doc with text := (normalize_text unicodedataNormalize
          pcfg.normalize.unicode_form pcfg.normalize.collapse_whitespace doc.text) }
      else doc
    if pcfg.dolma_toolkit.enabled then
      match tag pcfg.dolma_toolkit.pii_tagger doc.id doc.text doc.source with
      | Except.error e =>
        { doc with metadata := dictSet doc.metadata "dolma_toolkit_error" (MVal.str e) }
      | Except.ok spans =>
        if ¬ spans.isEmpty then
          { doc with
            text := mask_spans doc.text spans pcfg.dolma_toolkit.mask_token
            metadata := (dictSet (dictSet doc.metadata "pii_masked" (MVal.bool true))
              "pii_span_count" (MVal.int spans.length)) }
        else doc
    else doc

/-- The combined extra metadata computed once per `process_stream` call:
global then dataset metadata (dataset wins), then — when run metadata is
non-empty — the run metadata merged under the `run` sub-key over any
pre-existing `run` dict. -/
def combineExtraMd (global_md dataset_md run_md : MDict) : MDict :=
  let extra := pyDictMerge global_md dataset_md
  if ¬ run_md.isEmpty then
    match List.lookup "run" extra with
    | some (MVal.dict existing) =>
      dictSet extra "run" (MVal.dict (pyDictMerge existing run_md))
    | _ => dictSet extra "run" (MVal.dict run_md)
  else extra

/-- `f"part-{shard_id:05d}"`: decimal, left-padded with zeros to width 5. -/
def zeroPad5 (n : Nat) : String :=
  let s := toString n
  String.mk (List.replicate (5 - s.length) '0') ++ s

/-- The shard file name `part-NNNNN.jsonl`. -/
def shardName (shard_id : Nat) : String := "part-" ++ zeroPad5 shard_id ++ ".jsonl"

/-- Result of `process_stream`: the returned pair plus the shards dispatched
to `save_records`, in write order, with their file names. -/
structure StreamResult where
  total : Nat
  shard_count : Nat
  shards : List (String × List Doc)

/-- The `process_stream` loop: build each record's document, buffer it, flush
a shard whenever the buffer reaches `shard_size`, flush the final partial
buffer, and return `(total, shard_id + 1)` together with the written shards. -/
def processStreamLoop (docOf : PyRecord → Doc) (shard_size : Nat) :
    List PyRecord → List Doc → Nat → Nat → List (String × List Doc) → StreamResult
  | [], buffer, shard_id, total, written =>
    if ¬ buffer.isEmpty then
      { total := total, shard_count := shard_id + 1,
        shards := written ++ [(shardName shard_id, buffer)] }
    else { total := total, shard_count := shard_id + 1, shards := written }
  | r :: rest, buffer, shard_id, total, written =>
    let buffer := buffer ++ [docOf r]
    let total := total + 1
    if shard_size ≤ buffer.length then
      processStreamLoop docOf shard_size rest [] (shard_id + 1) total
        (written ++ [(shardName shard_id, buffer)])
    else processStreamLoop docOf shard_size rest buffer shard_id total written

/-- `process_stream` from `downloader.py` (storage sinks record shards in the
result instead of writing files). -/
def process_stream (dataset_name : String) (records : List PyRecord)
    (shard_size : Nat) (unicodedataNormalize : String → List Char → List Char)
    (tag : String → String → List Char → String → Except String (List (Nat × Nat)))
    (pcfg : ProcessingCfg) (dcfg : DatasetCfg) (run_md : MDict) : StreamResult :=
  let extra_md := combineExtraMd pcfg.metadata dcfg.metadata run_md
  processStreamLoop
    (fun r => process_doc unicodedataNormalize tag pcfg
      (_build_doc dataset_name r dcfg extra_md))
    shard_size records [] 0 0 []

/-- `apply_limit(dataset, limit_cfg, mode)` from `downloader.py`.  For a
natural-number `value`, Python's `int(10000 * percent / 100)` equals natural
floor division `10000 * value / 100` (the float operations are exact in this
range). -/
def apply_limit {α : Type} (dataset : List α) (limit_type : String)
    (limit_value : Nat) (mode : String) : Except String (List α) :=
  if mode = "full" ∨ limit_type = "none" then Except.ok dataset
  else if limit_type = "rows" then Except.ok (dataset.take limit_value)
  else if limit_type = "percent" then
    Except.ok (dataset.take (10000 * limit_value / 100))
  else Except.error ("Unknown limit type: " ++ limit_type)

/-- Formalisation of the specification's id-derivation wording, for comparison
with `_build_doc`: the string form of the first *present* field among `id`,
`_id`, `doc_id`, with `stable_id(source, text)` only when none is present. -/
def specClaimedId (dataset_name : String) (record : PyRecord)
    (text : List Char) : String :=
  match List.lookup "id" record with
  | some v => pyStr v
  | none =>
    match List.lookup "_id" record with
    | some v => pyStr v
    | none =>
      match List.lookup "doc_id" record with
      | some v => pyStr v
      | none => stable_id [some dataset_name.toList, some text]

/-- A model of the external `unicodedata.normalize("NFC", ·)` restricted to
strings whose only canonically composable pair is LATIN SMALL LETTER E
(U+0065) followed directly by COMBINING ACUTE ACCENT (U+0301), composing to
U+00E9.  A NUL between them is a starter and blocks composition, exactly as
in Unicode canonical composition, so this model agrees with real NFC on the
strings it is applied to below. -/
def nfcModelEAux : Option Char → List Char → List Char
  | none, [] => []
  | some p, [] => [p]
  | none, c :: rest => nfcModelEAux (some c) rest
  | some p, c :: rest =>
    if p = 'e' ∧ c = Char.ofNat 0x301 then Char.ofNat 0xE9 :: nfcModelEAux none rest
    else p :: nfcModelEAux (some c) rest

/-- See `nfcModelEAux`: scan with the pending previous character. -/
def nfcModelE (l : List Char) : List Char := nfcModelEAux none l

/-- No two adjacent whitespace characters. -/
def noAdjSpaces (a b : Char) : Prop := pyIsSpace a = false ∨ pyIsSpace b = false

/-- The text of a document after the (possibly disabled) normalization step of
`process_doc`. -/
def normTextOf (f : String → List Char → List Char) (pcfg : ProcessingCfg)
    (doc : Doc) : List Char :=
  if pcfg.normalize.enabled then
    normalize_text f pcfg.normalize.unicode_form pcfg.normalize.collapse_whitespace
      doc.text
  else doc.text

/-! ## Theorems -/

theorem foldl_mergeStep_concat (l : List (Nat × Nat)) :
    ∀ (front : List (Nat × Nat)) (s e : Nat),
      (l.foldl mergeStep (front ++ [(s, e)])) = front ++ mergeInto s e l := by
  induction l with
  | nil => intro front s e; simp [mergeInto]
  | cons x rest ih =>
    intro front s e
    obtain ⟨s2, e2⟩ := x
    by_cases hv : e2 ≤ s2
    · simp only [List.foldl_cons]
      rw [show mergeStep (front ++ [(s, e)]) (s2, e2) = front ++ [(s, e)] from by
        simp [mergeStep, hv]]
      rw [show mergeInto s e ((s2, e2) :: rest) = mergeInto s e rest from by
        simp [mergeInto, hv]]
      exact ih front s e
    · by_cases hgap : e < s2
      · simp only [List.foldl_cons]
        rw [show mergeStep (front ++ [(s, e)]) (s2, e2) =
            (front ++ [(s, e)]) ++ [(s2, e2)] from by
          simp [mergeStep, hv, List.getLast?_concat, hgap]]
        rw [show mergeInto s e ((s2, e2) :: rest) =
            (s, e) :: mergeInto s2 e2 rest from by
          simp [mergeInto, hv, hgap]]
        rw [ih (front ++ [(s, e)]) s2 e2]
        simp
      · simp only [List.foldl_cons]
        rw [show mergeStep (front ++ [(s, e)]) (s2, e2) =
            front ++ [(s, max e e2)] from by
          simp [mergeStep, hv, List.getLast?_concat, List.dropLast_concat, hgap]]
        rw [show mergeInto s e ((s2, e2) :: rest) =
            mergeInto s (max e e2) rest from by
          simp [mergeInto, hv, hgap]]
        exact ih front s (max e e2)

theorem foldl_mergeStep_nil (l : List (Nat × Nat)) :
    l.foldl mergeStep [] = mergeSorted l := by
  induction l with
  | nil => rfl
  | cons x rest ih =>
    obtain ⟨s, e⟩ := x
    by_cases hv : e ≤ s
    · simp only [List.foldl_cons]
      rw [show mergeStep [] (s, e) = [] from by simp [mergeStep, hv]]
      rw [show mergeSorted ((s, e) :: rest) = mergeSorted rest from by
        simp [mergeSorted, hv]]
      exact ih
    · simp only [List.foldl_cons]
      rw [show mergeStep [] (s, e) = [] ++ [(s, e)] from by simp [mergeStep, hv]]
      rw [show mergeSorted ((s, e) :: rest) = mergeInto s e rest from by
        simp [mergeSorted, hv]]
      exact foldl_mergeStep_concat rest [] s e

theorem merge_spans_eq_mergeSorted (spans : List (Nat × Nat)) :
    _merge_spans spans = mergeSorted (sortSpans spans) :=
  foldl_mergeStep_nil (sortSpans spans)

theorem covers_nil (p : Nat) : ¬ covers [] p := by simp [covers]

theorem covers_cons {s e : Nat} {l : List (Nat × Nat)} {p : Nat} :
    covers ((s, e) :: l) p ↔ (s ≤ p ∧ p < e) ∨ covers l p := by
  simp [covers, List.mem_cons, or_and_right, exists_or]

theorem validCovers_cons {s e : Nat} {l : List (Nat × Nat)} {p : Nat} :
    validCovers ((s, e) :: l) p ↔ (s < e ∧ s ≤ p ∧ p < e) ∨ validCovers l p := by
  simp [validCovers, List.mem_cons, or_and_right, exists_or]

theorem chainSpans_tail {x : Nat × Nat} {l : List (Nat × Nat)}
    (h : ChainSpans (x :: l)) : ChainSpans l :=
  ⟨fun y hy => h.1 y (List.mem_cons_of_mem _ hy), (List.chain'_cons'.mp h.2).2⟩

/-- In a chain of spans, every span ends strictly before every later one begins. -/
theorem chainSpans_pairwise :
    ∀ {l : List (Nat × Nat)}, ChainSpans l → l.Pairwise (fun a b => a.2 < b.1)
  | [], _ => List.Pairwise.nil
  | x :: l, h => by
    have hc := List.chain'_cons'.mp h.2
    have htail : ChainSpans l := chainSpans_tail h
    have hp := chainSpans_pairwise htail
    refine List.pairwise_cons.mpr ⟨?_, hp⟩
    intro y hy
    cases l with
    | nil => cases hy
    | cons b t =>
      have hxb : x.2 < b.1 := hc.1 b rfl
      rcases List.mem_cons.mp hy with rfl | hyt
      · exact hxb
      · have hb : b.1 < b.2 := htail.1 b (List.mem_cons_self ..)
        have hby : b.2 < y.1 := (List.pairwise_cons.mp hp).1 y hyt
        omega

/-- Shape and chain invariants of `mergeInto` on a start-sorted tail. -/
theorem mergeInto_chain :
    ∀ (rest : List (Nat × Nat)) (s e : Nat), s < e →
    (∀ x ∈ rest, s ≤ x.1) → rest.Pairwise (fun a b => a.1 ≤ b.1) →
    (∃ e2 tl, mergeInto s e rest = (s, e2) :: tl) ∧ ChainSpans (mergeInto s e rest)
  | [], s, e, hse, _, _ => by
    refine ⟨⟨e, [], rfl⟩, ?_, ?_⟩
    · intro x hx
      rcases List.mem_cons.mp hx with rfl | hx
      · exact hse
      · cases hx
    · simp [mergeInto]
  | (s2, e2) :: rest, s, e, hse, hstart, hsorted => by
    have hs2 : s ≤ s2 := hstart (s2, e2) (List.mem_cons_self ..)
    have hstart' : ∀ x ∈ rest, s ≤ x.1 := fun x hx =>
      hstart x (List.mem_cons_of_mem _ hx)
    have hstart2 : ∀ x ∈ rest, s2 ≤ x.1 := fun x hx =>
      (List.pairwise_cons.mp hsorted).1 x hx
    have hsorted' := (List.pairwise_cons.mp hsorted).2
    by_cases hv : e2 ≤ s2
    · rw [show mergeInto s e ((s2, e2) :: rest) = mergeInto s e rest from by
        simp [mergeInto, hv]]
      exact mergeInto_chain rest s e hse hstart' hsorted'
    · by_cases hgap : e < s2
      · rw [show mergeInto s e ((s2, e2) :: rest) =
            (s, e) :: mergeInto s2 e2 rest from by simp [mergeInto, hv, hgap]]
        obtain ⟨⟨e3, tl, heq⟩, hchain⟩ :=
          mergeInto_chain rest s2 e2 (by omega) hstart2 hsorted'
        refine ⟨⟨e, (s2, e3) :: tl, by rw [heq]⟩, ?_, ?_⟩
        · intro x hx
          rcases List.mem_cons.mp hx with rfl | hx
          · exact hse
          · exact hchain.1 x hx
        · refine List.chain'_cons'.mpr ⟨?_, hchain.2⟩
          intro y hy
          rw [heq] at hy
          simp only [List.head?_cons, Option.mem_def, Option.some.injEq] at hy
          subst hy
          exact hgap
      · rw [show mergeInto s e ((s2, e2) :: rest) =
            mergeInto s (max e e2) rest from by simp [mergeInto, hv, hgap]]
        exact mergeInto_chain rest s (max e e2) (by omega) hstart' hsorted'

/-- Coverage of `mergeInto` equals the running span's coverage plus the
valid coverage of the remaining sorted spans. -/
theorem mergeInto_covers :
    ∀ (rest : List (Nat × Nat)) (s e p : Nat),
    (∀ x ∈ rest, s ≤ x.1) → rest.Pairwise (fun a b => a.1 ≤ b.1) →
    (covers (mergeInto s e rest) p ↔ (s ≤ p ∧ p < e) ∨ validCovers rest p)
  | [], s, e, p, _, _ => by
    simp [mergeInto, covers, validCovers]
  | (s2, e2) :: rest, s, e, p, hstart, hsorted => by
    have hs2 : s ≤ s2 := hstart (s2, e2) (List.mem_cons_self ..)
    have hstart' : ∀ x ∈ rest, s ≤ x.1 := fun x hx =>
      hstart x (List.mem_cons_of_mem _ hx)
    have hstart2 : ∀ x ∈ rest, s2 ≤ x.1 := fun x hx =>
      (List.pairwise_cons.mp hsorted).1 x hx
    have hsorted' := (List.pairwise_cons.mp hsorted).2
    by_cases hv : e2 ≤ s2
    · rw [show mergeInto s e ((s2, e2) :: rest) = mergeInto s e rest from by
        simp [mergeInto, hv]]
      rw [mergeInto_covers rest s e p hstart' hsorted', validCovers_cons]
      constructor
      · rintro (h | h)
        · exact Or.inl h
        · exact Or.inr (Or.inr h)
      · rintro (h | (⟨h1, _⟩ | h))
        · exact Or.inl h
        · omega
        · exact Or.inr h
    · by_cases hgap : e < s2
      · rw [show mergeInto s e ((s2, e2) :: rest) =
            (s, e) :: mergeInto s2 e2 rest from by simp [mergeInto, hv, hgap]]
        rw [covers_cons, mergeInto_covers rest s2 e2 p hstart2 hsorted',
          validCovers_cons]
        constructor
        · rintro (h | (h | h))
          · exact Or.inl h
          · exact Or.inr (Or.inl ⟨by omega, h⟩)
          · exact Or.inr (Or.inr h)
        · rintro (h | (⟨_, h⟩ | h))
          · exact Or.inl h
          · exact Or.inr (Or.inl h)
          · exact Or.inr (Or.inr h)
      · rw [show mergeInto s e ((s2, e2) :: rest) =
            mergeInto s (max e e2) rest from by simp [mergeInto, hv, hgap]]
        rw [mergeInto_covers rest s (max e e2) p hstart' hsorted',
          validCovers_cons]
        constructor
        · rintro (h | h)
          · rcases Nat.le_total e e2 with hee | hee
            · rw [Nat.max_eq_right hee] at h
              rcases Nat.lt_or_ge p e with hpe | hpe
              · exact Or.inl ⟨h.1, hpe⟩
              · exact Or.inr (Or.inl ⟨by omega, by omega, h.2⟩)
            · rw [Nat.max_eq_left hee] at h
              rcases Nat.lt_or_ge p e with hpe | hpe
              · exact Or.inl ⟨h.1, hpe⟩
              · omega
          · exact Or.inr (Or.inr h)
        · rintro (h | (h | h))
          · exact Or.inl ⟨h.1, lt_of_lt_of_le h.2 (le_max_left e e2)⟩
          · exact Or.inl ⟨by omega, lt_of_lt_of_le h.2.2 (le_max_right e e2)⟩
          · exact Or.inr h

theorem spanKeyLE_iff {a b : Nat × Nat} :
    spanKeyLE a b ↔ (a.1 < b.1 ∨ (a.1 = b.1 ∧ a.2 ≤ b.2)) := Iff.rfl

theorem sorted_pairwise_starts {l : List (Nat × Nat)}
    (h : List.Sorted spanKeyLE l) : l.Pairwise (fun a b => a.1 ≤ b.1) :=
  h.imp (fun hab => by rcases spanKeyLE_iff.mp hab with h | ⟨h, _⟩ <;> omega)

theorem mergeSorted_chain :
    ∀ {l : List (Nat × Nat)}, List.Sorted spanKeyLE l → ChainSpans (mergeSorted l)
  | [], _ => by
    rw [show mergeSorted [] = [] from rfl]
    exact ⟨fun x hx => (List.not_mem_nil x hx).elim, List.chain'_nil⟩
  | (s, e) :: rest, h => by
    have hps := sorted_pairwise_starts h
    have hstart := (List.pairwise_cons.mp hps).1
    have hsorted' := (List.pairwise_cons.mp hps).2
    by_cases hv : e ≤ s
    · rw [show mergeSorted ((s, e) :: rest) = mergeSorted rest from by
        simp [mergeSorted, hv]]
      exact mergeSorted_chain h.of_cons
    · rw [show mergeSorted ((s, e) :: rest) = mergeInto s e rest from by
        simp [mergeSorted, hv]]
      exact (mergeInto_chain rest s e (by omega) hstart hsorted').2

theorem mergeSorted_covers :
    ∀ {l : List (Nat × Nat)}, List.Sorted spanKeyLE l → ∀ p,
      (covers (mergeSorted l) p ↔ validCovers l p)
  | [], _, p => by
    rw [show mergeSorted [] = [] from rfl]
    simp [covers, validCovers]
  | (s, e) :: rest, h, p => by
    have hps := sorted_pairwise_starts h
    have hstart := (List.pairwise_cons.mp hps).1
    have hsorted' := (List.pairwise_cons.mp hps).2
    by_cases hv : e ≤ s
    · rw [show mergeSorted ((s, e) :: rest) = mergeSorted rest from by
        simp [mergeSorted, hv]]
      rw [mergeSorted_covers h.of_cons p, validCovers_cons]
      constructor
      · exact Or.inr
      · rintro (⟨h1, _⟩ | h2)
        · omega
        · exact h2
    · rw [show mergeSorted ((s, e) :: rest) = mergeInto s e rest from by
        simp [mergeSorted, hv]]
      rw [mergeInto_covers rest s e p hstart hsorted', validCovers_cons]
      constructor
      · rintro (h1 | h2)
        · exact Or.inl ⟨by omega, h1⟩
        · exact Or.inr h2
      · rintro (⟨_, h1⟩ | h2)
        · exact Or.inl h1
        · exact Or.inr h2

theorem validCovers_perm {l1 l2 : List (Nat × Nat)} (h : l1.Perm l2) (p : Nat) :
    validCovers l1 p ↔ validCovers l2 p := by
  unfold validCovers
  constructor <;> rintro ⟨x, hx, hprop⟩
  · exact ⟨x, h.mem_iff.mp hx, hprop⟩
  · exact ⟨x, h.mem_iff.mpr hx, hprop⟩

/-- `_merge_spans` yields an ordered list of disjoint, non-adjacent,
non-empty spans. -/
theorem merge_spans_chain (spans : List (Nat × Nat)) :
    ChainSpans (_merge_spans spans) := by
  rw [merge_spans_eq_mergeSorted]
  exact mergeSorted_chain (List.sorted_insertionSort spanKeyLE spans)

/-- `_merge_spans` covers exactly the character positions covered by the
valid input spans. -/
theorem merge_spans_covers (spans : List (Nat × Nat)) (p : Nat) :
    covers (_merge_spans spans) p ↔ validCovers spans p := by
  rw [merge_spans_eq_mergeSorted,
    mergeSorted_covers (l := sortSpans spans)
      (List.sorted_insertionSort spanKeyLE spans) p]
  exact validCovers_perm (List.perm_insertionSort spanKeyLE spans) p

/-- Two chains of disjoint non-adjacent non-empty spans covering the same
positions are equal: the `_merge_spans` representation is canonical, hence
minimal. -/
theorem chainSpans_ext :
    ∀ (l1 l2 : List (Nat × Nat)), ChainSpans l1 → ChainSpans l2 →
      (∀ p, covers l1 p ↔ covers l2 p) → l1 = l2
  | [], [], _, _, _ => rfl
  | [], (s, e) :: t, _, h2, hcov => by
    exfalso
    have hc : covers ((s, e) :: t) s :=
      covers_cons.mpr (Or.inl ⟨le_refl s, h2.1 (s, e) (List.mem_cons_self ..)⟩)
    exact covers_nil s ((hcov s).mpr hc)
  | (s, e) :: t, [], h1, _, hcov => by
    exfalso
    have hc : covers ((s, e) :: t) s :=
      covers_cons.mpr (Or.inl ⟨le_refl s, h1.1 (s, e) (List.mem_cons_self ..)⟩)
    exact covers_nil s ((hcov s).mp hc)
  | (s1, e1) :: t1, (s2, e2) :: t2, h1, h2, hcov => by
    have hv1 : s1 < e1 := h1.1 (s1, e1) (List.mem_cons_self ..)
    have hv2 : s2 < e2 := h2.1 (s2, e2) (List.mem_cons_self ..)
    have hp1 := (List.pairwise_cons.mp (chainSpans_pairwise h1)).1
    have hp2 := (List.pairwise_cons.mp (chainSpans_pairwise h2)).1
    have hs21 : s2 ≤ s1 := by
      have hc := (hcov s1).mp (covers_cons.mpr (Or.inl ⟨le_refl s1, hv1⟩))
      rcases covers_cons.mp hc with h | ⟨x, hx, hle, hlt⟩
      · omega
      · have := hp2 x hx
        omega
    have hs12 : s1 ≤ s2 := by
      have hc := (hcov s2).mpr (covers_cons.mpr (Or.inl ⟨le_refl s2, hv2⟩))
      rcases covers_cons.mp hc with h | ⟨x, hx, hle, hlt⟩
      · omega
      · have := hp1 x hx
        omega
    have he12 : ¬ e1 < e2 := by
      intro hlt
      have hc := (hcov e1).mpr (covers_cons.mpr (Or.inl ⟨by omega, hlt⟩))
      rcases covers_cons.mp hc with h | ⟨x, hx, hxle, hxlt⟩
      · omega
      · have := hp1 x hx
        omega
    have he21 : ¬ e2 < e1 := by
      intro hlt
      have hc := (hcov e2).mp (covers_cons.mpr (Or.inl ⟨by omega, hlt⟩))
      rcases covers_cons.mp hc with h | ⟨x, hx, hxle, hxlt⟩
      · omega
      · have := hp2 x hx
        omega
    have htcov : ∀ p, covers t1 p ↔ covers t2 p := by
      intro p
      constructor
      · intro hc
        obtain ⟨x, hx, hxle, hxlt⟩ := hc
        have hgt : e1 < x.1 := hp1 x hx
        have hfull := (hcov p).mp
          (covers_cons.mpr (Or.inr ⟨x, hx, hxle, hxlt⟩))
        rcases covers_cons.mp hfull with h | h
        · omega
        · exact h
      · intro hc
        obtain ⟨x, hx, hxle, hxlt⟩ := hc
        have hgt : e2 < x.1 := hp2 x hx
        have hfull := (hcov p).mpr
          (covers_cons.mpr (Or.inr ⟨x, hx, hxle, hxlt⟩))
        rcases covers_cons.mp hfull with h | h
        · omega
        · exact h
    have ht := chainSpans_ext t1 t2 (chainSpans_tail h1) (chainSpans_tail h2) htcov
    rw [show s1 = s2 from by omega, show e1 = e2 from by omega, ht]

theorem foldl_maskStep_render (text tok : List Char) :
    ∀ (merged : List (Nat × Nat)) (out : List (List Char)) (cur : Nat),
      (let res := merged.foldl (maskStep text tok) (out, cur)
       (if res.2 < text.length then res.1 ++ [text.drop res.2] else res.1).flatten)
      = out.flatten ++ maskRender text tok cur merged := by
  intro merged
  induction merged with
  | nil =>
    intro out cur
    simp only [List.foldl_nil, maskRender]
    by_cases h : cur < text.length
    · simp [h]
    · rw [if_neg h, List.drop_eq_nil_of_le (by omega)]
      simp
  | cons x rest ih =>
    intro out cur
    obtain ⟨s, e⟩ := x
    simp only [List.foldl_cons]
    rw [show maskStep text tok (out, cur) (s, e) =
        ((if cur < s then out ++ [pySlice text cur s] else out) ++ [tok], e)
      from rfl]
    rw [ih _ e]
    have hout : ((if cur < s then out ++ [pySlice text cur s] else out)
        ++ [tok]).flatten = out.flatten ++ pySlice text cur s ++ tok := by
      by_cases h : cur < s
      · simp [h]
      · rw [if_neg h]
        rw [show pySlice text cur s = [] from by
          unfold pySlice
          rw [Nat.sub_eq_zero_of_le (by omega), List.take_zero]]
        simp
    rw [hout, maskRender]
    simp

/-- `mask_spans` renders the merged spans: every character outside the merged
spans is kept verbatim and in order, every merged span is replaced by the
mask token. -/
theorem mask_spans_eq_render (text : List Char) (spans : List (Nat × Nat))
    (tok : List Char) :
    mask_spans text spans tok = maskRender text tok 0 (_merge_spans spans) := by
  unfold mask_spans
  by_cases h : _merge_spans spans = []
  · rw [if_pos h, h]
    simp [maskRender]
  · rw [if_neg h]
    have := foldl_maskStep_render text tok (_merge_spans spans) [] 0
    simpa using this

theorem mergeSorted_nil_of_invalid :
    ∀ {l : List (Nat × Nat)}, (∀ x ∈ l, x.2 ≤ x.1) → mergeSorted l = []
  | [], _ => rfl
  | (s, e) :: rest, h => by
    have hv : e ≤ s := h (s, e) (List.mem_cons_self ..)
    rw [show mergeSorted ((s, e) :: rest) = mergeSorted rest from by
      simp [mergeSorted, hv]]
    exact mergeSorted_nil_of_invalid (fun x hx => h x (List.mem_cons_of_mem _ hx))

/-- If every input span is empty or invalid, `_merge_spans` discards them all. -/
theorem merge_spans_nil_of_invalid {spans : List (Nat × Nat)}
    (h : ∀ x ∈ spans, x.2 ≤ x.1) : _merge_spans spans = [] := by
  rw [merge_spans_eq_mergeSorted]
  exact mergeSorted_nil_of_invalid (fun x hx =>
    h x ((List.perm_insertionSort spanKeyLE spans).mem_iff.mp hx))

/-- When no valid span remains, `mask_spans` returns the text unchanged. -/
theorem mask_spans_id_of_invalid (text tok : List Char)
    {spans : List (Nat × Nat)} (h : ∀ x ∈ spans, x.2 ≤ x.1) :
    mask_spans text spans tok = text := by
  unfold mask_spans
  rw [merge_spans_nil_of_invalid h]
  simp

theorem noAdjSpaces_symm {a b : Char} (h : noAdjSpaces a b) : noAdjSpaces b a :=
  h.symm

theorem stripNul_no_nul {s : List Char} : ∀ c ∈ stripNul s, c ≠ nulChar := by
  intro c hc
  have := List.of_mem_filter hc
  simpa using this

theorem stripNul_of_no_nul {s : List Char} (h : ∀ c ∈ s, c ≠ nulChar) :
    stripNul s = s := by
  apply List.filter_eq_self.mpr
  intro c hc
  simpa using h c hc

theorem stripNul_idem (s : List Char) : stripNul (stripNul s) = stripNul s :=
  stripNul_of_no_nul stripNul_no_nul

/-- Every character `wsSubAux` emits is the replacement space or a non-space
input character. -/
theorem wsSubAux_mem :
    ∀ (b : Bool) (s : List Char) (c : Char), c ∈ wsSubAux b s →
      c = ' ' ∨ (c ∈ s ∧ pyIsSpace c = false)
  | _, [], _, hc => by simp [wsSubAux] at hc
  | b, c0 :: rest, c, hc => by
    by_cases hsp : pyIsSpace c0
    · rw [show wsSubAux b (c0 :: rest) =
          (if b then ([] : List Char) else [' ']) ++ wsSubAux true rest from by
        simp [wsSubAux, hsp]] at hc
      rcases List.mem_append.mp hc with h | h
      · cases b with
        | true => cases h
        | false =>
          left
          simpa using h
      · rcases wsSubAux_mem true rest c h with h2 | ⟨h2, h3⟩
        · exact Or.inl h2
        · exact Or.inr ⟨List.mem_cons_of_mem _ h2, h3⟩
    · rw [show wsSubAux b (c0 :: rest) = c0 :: wsSubAux false rest from by
        simp [wsSubAux, hsp]] at hc
      rcases List.mem_cons.mp hc with rfl | h
      · right
        exact ⟨List.mem_cons_self .., by simpa using hsp⟩
      · rcases wsSubAux_mem false rest c h with h2 | ⟨h2, h3⟩
        · exact Or.inl h2
        · exact Or.inr ⟨List.mem_cons_of_mem _ h2, h3⟩

/-- After a space run has been collapsed, the next emitted character is not
whitespace. -/
theorem wsSubAux_head_true :
    ∀ (s : List Char) (c : Char), (wsSubAux true s).head? = some c →
      pyIsSpace c = false
  | [], c, hc => by simp [wsSubAux] at hc
  | c0 :: rest, c, hc => by
    by_cases hsp : pyIsSpace c0
    · rw [show wsSubAux true (c0 :: rest) = wsSubAux true rest from by
        simp [wsSubAux, hsp]] at hc
      exact wsSubAux_head_true rest c hc
    · rw [show wsSubAux true (c0 :: rest) = c0 :: wsSubAux false rest from by
        simp [wsSubAux, hsp]] at hc
      simp only [List.head?_cons, Option.some.injEq] at hc
      subst hc
      simpa using hsp

/-- `wsSubAux` never emits two adjacent whitespace characters. -/
theorem wsSubAux_chain :
    ∀ (b : Bool) (s : List Char), (wsSubAux b s).Chain' noAdjSpaces
  | _, [] => by
    rw [show wsSubAux _ [] = [] from by simp [wsSubAux]]
    exact List.chain'_nil
  | b, c0 :: rest => by
    by_cases hsp : pyIsSpace c0
    · cases b with
      | true =>
        rw [show wsSubAux true (c0 :: rest) = wsSubAux true rest from by
          simp [wsSubAux, hsp]]
        exact wsSubAux_chain true rest
      | false =>
        rw [show wsSubAux false (c0 :: rest) = ' ' :: wsSubAux true rest from by
          simp [wsSubAux, hsp]]
        refine List.chain'_cons'.mpr ⟨?_, wsSubAux_chain true rest⟩
        intro y hy
        exact Or.inr (wsSubAux_head_true rest y hy)
    · rw [show wsSubAux b (c0 :: rest) = c0 :: wsSubAux false rest from by
        simp [wsSubAux, hsp]]
      refine List.chain'_cons'.mpr ⟨?_, wsSubAux_chain false rest⟩
      intro y _
      exact Or.inl (by simpa using hsp)

/-- When the first character is not whitespace the previous-was-whitespace
flag is irrelevant. -/
theorem wsSubAux_true_eq_false {s : List Char}
    (h : ∀ c, s.head? = some c → pyIsSpace c = false) :
    wsSubAux true s = wsSubAux false s := by
  cases s with
  | nil => rfl
  | cons c rest =>
    have := h c (by simp)
    simp [wsSubAux, this]

/-- A string with no adjacent whitespace whose whitespace characters are all
the ASCII space is a fixed point of whitespace collapsing. -/
theorem wsSub_fixed :
    ∀ (s : List Char), s.Chain' noAdjSpaces →
      (∀ c ∈ s, pyIsSpace c = true → c = ' ') → wsSub s = s
  | [], _, _ => rfl
  | c0 :: rest, hchain, hsp => by
    have hc := List.chain'_cons'.mp hchain
    by_cases h0 : pyIsSpace c0
    · have hc0 : c0 = ' ' := hsp c0 (List.mem_cons_self ..) (by simpa using h0)
      have hhead : ∀ c, rest.head? = some c → pyIsSpace c = false := by
        intro c hc2
        rcases hc.1 c hc2 with h | h
        · rw [h0] at h
          cases h
        · exact h
      show wsSubAux false (c0 :: rest) = c0 :: rest
      rw [show wsSubAux false (c0 :: rest) = ' ' :: wsSubAux true rest from by
        simp [wsSubAux, h0]]
      rw [wsSubAux_true_eq_false hhead]
      rw [show wsSubAux false rest = rest from
        wsSub_fixed rest hc.2 (fun c h1 h2 => hsp c (List.mem_cons_of_mem _ h1) h2)]
      rw [hc0]
    · show wsSubAux false (c0 :: rest) = c0 :: rest
      rw [show wsSubAux false (c0 :: rest) = c0 :: wsSubAux false rest from by
        simp [wsSubAux, h0]]
      rw [show wsSubAux false rest = rest from
        wsSub_fixed rest hc.2 (fun c h1 h2 => hsp c (List.mem_cons_of_mem _ h1) h2)]

theorem dropWhile_head_not {p : Char → Bool} :
    ∀ (l : List Char) (c : Char), (l.dropWhile p).head? = some c → p c = false
  | [], c, hc => by simp at hc
  | a :: l, c, hc => by
    by_cases ha : p a
    · rw [List.dropWhile_cons, if_pos ha] at hc
      exact dropWhile_head_not l c hc
    · rw [List.dropWhile_cons, if_neg ha] at hc
      simp only [List.head?_cons, Option.some.injEq] at hc
      subst hc
      simpa using ha

theorem dropWhile_eq_self_of_head {p : Char → Bool} (l : List Char)
    (h : ∀ c, l.head? = some c → p c = false) : l.dropWhile p = l := by
  cases l with
  | nil => rfl
  | cons a l =>
    have := h a (by simp)
    rw [List.dropWhile_cons, if_neg (by simp [this])]

theorem chain_dropWhile {R : Char → Char → Prop} {p : Char → Bool} :
    ∀ (l : List Char), l.Chain' R → (l.dropWhile p).Chain' R
  | [], _ => List.chain'_nil
  | a :: l, h => by
    by_cases ha : p a
    · rw [List.dropWhile_cons, if_pos ha]
      exact chain_dropWhile l (List.chain'_cons'.mp h).2
    · rwa [List.dropWhile_cons, if_neg ha]

theorem mem_dropWhile {p : Char → Bool} {l : List Char} {c : Char}
    (h : c ∈ l.dropWhile p) : c ∈ l :=
  (List.dropWhile_sublist p).mem h

theorem chain_reverse_noAdj {l : List Char} (h : l.Chain' noAdjSpaces) :
    l.reverse.Chain' noAdjSpaces :=
  List.chain'_reverse.mpr (List.Chain'.imp (fun _ _ hab => noAdjSpaces_symm hab) h)

theorem pyStrip_mem {s : List Char} {c : Char} (h : c ∈ pyStrip s) : c ∈ s := by
  unfold pyStrip at h
  rw [List.mem_reverse] at h
  have h2 := mem_dropWhile h
  rw [List.mem_reverse] at h2
  exact mem_dropWhile h2

theorem pyStrip_chain {s : List Char} (h : s.Chain' noAdjSpaces) :
    (pyStrip s).Chain' noAdjSpaces := by
  unfold pyStrip
  exact chain_reverse_noAdj (chain_dropWhile _ (chain_reverse_noAdj (chain_dropWhile _ h)))

theorem pyStrip_head {s : List Char} :
    ∀ c, (pyStrip s).head? = some c → pyIsSpace c = false := by
  intro c hc
  unfold pyStrip at hc
  rw [List.head?_reverse] at hc
  obtain ⟨front, hfront⟩ :=
    List.dropWhile_suffix (l := (s.dropWhile pyIsSpace).reverse) pyIsSpace
  by_cases hv : (s.dropWhile pyIsSpace).reverse.dropWhile pyIsSpace = []
  · rw [hv] at hc
    simp at hc
  · have h1 : ((s.dropWhile pyIsSpace).reverse.dropWhile pyIsSpace).getLast?
        = (front ++ (s.dropWhile pyIsSpace).reverse.dropWhile pyIsSpace).getLast? :=
      (List.getLast?_append_of_ne_nil front hv).symm
    rw [h1, hfront, List.getLast?_reverse] at hc
    exact dropWhile_head_not _ c hc

theorem pyStrip_getLast {s : List Char} :
    ∀ c, (pyStrip s).getLast? = some c → pyIsSpace c = false := by
  intro c hc
  unfold pyStrip at hc
  rw [List.getLast?_reverse] at hc
  exact dropWhile_head_not _ c hc

theorem pyStrip_fixed (s : List Char)
    (h1 : ∀ c, s.head? = some c → pyIsSpace c = false)
    (h2 : ∀ c, s.getLast? = some c → pyIsSpace c = false) : pyStrip s = s := by
  unfold pyStrip
  rw [dropWhile_eq_self_of_head s h1]
  rw [dropWhile_eq_self_of_head s.reverse (fun c hc =>
    h2 c (by rwa [List.head?_reverse] at hc))]
  exact List.reverse_reverse s

theorem wsSub_space_sp (s : List Char) :
    ∀ c ∈ wsSub s, pyIsSpace c = true → c = ' ' := by
  intro c hc hsp
  rcases wsSubAux_mem false s c hc with h | ⟨_, h⟩
  · exact h
  · rw [h] at hsp
    cases hsp

theorem wsSub_no_nul {s : List Char} (h : ∀ c ∈ s, c ≠ nulChar) :
    ∀ c ∈ wsSub s, c ≠ nulChar := by
  intro c hc
  rcases wsSubAux_mem false s c hc with h2 | ⟨h2, _⟩
  · rw [h2]
    decide
  · exact h c h2

/-- Whitespace collapsing followed by stripping is idempotent. -/
theorem collapse_fixed (s : List Char) :
    pyStrip (wsSub (pyStrip (wsSub s))) = pyStrip (wsSub s) := by
  have hchain : (pyStrip (wsSub s)).Chain' noAdjSpaces :=
    pyStrip_chain (wsSubAux_chain false s)
  have hsp : ∀ c ∈ pyStrip (wsSub s), pyIsSpace c = true → c = ' ' :=
    fun c hc => wsSub_space_sp s c (pyStrip_mem hc)
  rw [wsSub_fixed _ hchain hsp]
  exact pyStrip_fixed _ (fun c => pyStrip_head c) (fun c => pyStrip_getLast c)

/-- `normalize_text` is idempotent whenever the Unicode-normalization step
fixes `normalize_text`'s own outputs (in particular when `unicode_form` is
empty or `"none"`, where that step is the identity). -/
theorem normalize_text_idem_of_unorm_fix
    (f : String → List Char → List Char) (form : String) (c : Bool) (t : List Char)
    (H : ∀ s : List Char,
      unormStep f form (normalize_text f form c s) = normalize_text f form c s) :
    normalize_text f form c (normalize_text f form c t) =
      normalize_text f form c t := by
  cases c with
  | false =>
    have e1 : ∀ x, normalize_text f form false x = stripNul (unormStep f form x) :=
      fun x => rfl
    rw [e1 (normalize_text f form false t), H t, e1 t, stripNul_idem]
  | true =>
    have e1 : ∀ x, normalize_text f form true x =
        pyStrip (wsSub (stripNul (unormStep f form x))) := fun x => rfl
    have hnonul : ∀ ch ∈ normalize_text f form true t, ch ≠ nulChar := by
      intro ch hch
      rw [e1 t] at hch
      exact wsSub_no_nul stripNul_no_nul ch (pyStrip_mem hch)
    calc normalize_text f form true (normalize_text f form true t)
        = pyStrip (wsSub (stripNul (unormStep f form (normalize_text f form true t)))) :=
          e1 _
      _ = pyStrip (wsSub (stripNul (normalize_text f form true t))) := by rw [H t]
      _ = pyStrip (wsSub (normalize_text f form true t)) := by
          rw [stripNul_of_no_nul hnonul]
      _ = normalize_text f form true t := by
          rw [e1 t]
          exact collapse_fixed _

/-! ## Dictionary lemmas -/

theorem lookup_dictSet (d : MDict) (k : String) (v : MVal) :
    List.lookup k (dictSet d k v) = some v := by
  induction d with
  | nil => simp [dictSet, List.lookup]
  | cons kv rest ih =>
    obtain ⟨k2, v2⟩ := kv
    by_cases hk : k2 = k
    · subst hk
      simp [dictSet, List.lookup]
    · have hbeq : (k == k2) = false := beq_eq_false_iff_ne.mpr (Ne.symm hk)
      simp [dictSet, hk, List.lookup, hbeq, ih]

theorem lookup_dictSet_ne (d : MDict) {k k2 : String} (v : MVal) (h : k2 ≠ k) :
    List.lookup k2 (dictSet d k v) = List.lookup k2 d := by
  have hb : (k2 == k) = false := beq_eq_false_iff_ne.mpr h
  induction d with
  | nil => simp [dictSet, List.lookup, hb]
  | cons kv rest ih =>
    obtain ⟨k3, v3⟩ := kv
    by_cases hk : k3 = k
    · subst hk
      simp [dictSet, List.lookup, hb]
    · simp only [dictSet, if_neg hk]
      by_cases h2 : k2 = k3
      · subst h2
        simp [List.lookup]
      · have hb2 : (k2 == k3) = false := beq_eq_false_iff_ne.mpr h2
        simp [List.lookup, hb2, ih]

theorem lookup_eq_none_of_not_keys {d : MDict} {k : String}
    (h : k ∉ d.map Prod.fst) : List.lookup k d = none := by
  induction d with
  | nil => rfl
  | cons kv rest ih =>
    obtain ⟨k2, v2⟩ := kv
    simp only [List.map_cons, List.mem_cons] at h
    push_neg at h
    have hb : (k == k2) = false := beq_eq_false_iff_ne.mpr h.1
    simp [List.lookup, hb, ih h.2]

/-- Lookup in `{**a, **b}` when `b` has no duplicate keys (always true of a
Python dict): `b`'s value wins, else `a`'s. -/
theorem lookup_pyDictMerge (a b : MDict) (k : String)
    (hb : (b.map Prod.fst).Nodup) :
    List.lookup k (pyDictMerge a b) = (List.lookup k b).or (List.lookup k a) := by
  induction b generalizing a with
  | nil => simp [pyDictMerge, List.lookup]
  | cons kv rest ih =>
    obtain ⟨k2, v2⟩ := kv
    simp only [List.map_cons, List.nodup_cons] at hb
    rw [show pyDictMerge a ((k2, v2) :: rest) = pyDictMerge (dictSet a k2 v2) rest from
      rfl]
    rw [ih (dictSet a k2 v2) hb.2]
    by_cases hk : k = k2
    · subst hk
      rw [lookup_eq_none_of_not_keys hb.1, lookup_dictSet]
      simp [List.lookup]
    · rw [lookup_dictSet_ne a v2 hk]
      have hbeq : (k == k2) = false := beq_eq_false_iff_ne.mpr hk
      simp [List.lookup, hbeq]

theorem isEmpty_if_collapse (l : MDict) :
    (if l.isEmpty then ([] : MDict) else l) = l := by
  cases l <;> simp

/-- A tagging/masking failure is caught: the error lands in
`metadata.dolma_toolkit_error` as a string, the text stays normalized but
unmasked, and the document is returned normally with everything else
unchanged. -/
theorem process_doc_tag_error (f : String → List Char → List Char)
    (tag : String → String → List Char → String → Except String (List (Nat × Nat)))
    (pcfg : ProcessingCfg) (doc : Doc) (e : String)
    (hen : pcfg.enabled = true) (hdol : pcfg.dolma_toolkit.enabled = true)
    (htag : tag pcfg.dolma_toolkit.pii_tagger doc.id (normTextOf f pcfg doc)
      doc.source = Except.error e) :
    process_doc f tag pcfg doc =
      { doc with
        text := normTextOf f pcfg doc
        metadata := dictSet doc.metadata "dolma_toolkit_error" (MVal.str e) } := by
  by_cases hnorm : pcfg.normalize.enabled
  · simp only [normTextOf, hnorm, if_true] at htag ⊢
    simp [process_doc, hen, hdol, hnorm, htag]
  · have hnf : pcfg.normalize.enabled = false := by simpa using hnorm
    simp only [normTextOf, hnf, Bool.false_eq_true, if_false] at htag ⊢
    simp [process_doc, hen, hdol, hnf, htag]

/-- A non-empty tagger result is masked into the text and recorded as
`pii_masked` plus the raw (pre-merge) span count. -/
theorem process_doc_tag_ok (f : String → List Char → List Char)
    (tag : String → String → List Char → String → Except String (List (Nat × Nat)))
    (pcfg : ProcessingCfg) (doc : Doc) (spans : List (Nat × Nat))
    (hen : pcfg.enabled = true) (hdol : pcfg.dolma_toolkit.enabled = true)
    (htag : tag pcfg.dolma_toolkit.pii_tagger doc.id (normTextOf f pcfg doc)
      doc.source = Except.ok spans) (hne : spans ≠ []) :
    process_doc f tag pcfg doc =
      { doc with
        text := mask_spans (normTextOf f pcfg doc) spans
          pcfg.dolma_toolkit.mask_token
        metadata := dictSet (dictSet doc.metadata "pii_masked" (MVal.bool true))
          "pii_span_count" (MVal.int spans.length) } := by
  have hne2 : spans.isEmpty = false := by
    cases spans with
    | nil => exact absurd rfl hne
    | cons a l => rfl
  by_cases hnorm : pcfg.normalize.enabled
  · simp only [normTextOf, hnorm, if_true] at htag ⊢
    simp [process_doc, hen, hdol, hnorm, htag, hne2]
  · have hnf : pcfg.normalize.enabled = false := by simpa using hnorm
    simp only [normTextOf, hnf, Bool.false_eq_true, if_false] at htag ⊢
    simp [process_doc, hen, hdol, hnf, htag, hne2]

/-- With the dolma toolkit disabled, `process_doc` leaves metadata untouched. -/
theorem process_doc_metadata_of_dolma_off (f : String → List Char → List Char)
    (tag : String → String → List Char → String → Except String (List (Nat × Nat)))
    (pcfg : ProcessingCfg) (doc : Doc)
    (hdol : pcfg.dolma_toolkit.enabled = false) :
    (process_doc f tag pcfg doc).metadata = doc.metadata := by
  by_cases hen : pcfg.enabled
  · by_cases hnorm : pcfg.normalize.enabled <;>
      simp [process_doc, hen, hnorm, hdol]
  · simp [process_doc, hen]

/-! ## Sharding loop lemmas -/

theorem processStreamLoop_count (docOf : PyRecord → Doc) (ss : Nat) (h0 : 0 < ss) :
    ∀ (records : List PyRecord) (buffer : List Doc) (shard_id total : Nat)
      (written : List (String × List Doc)),
      buffer.length < ss → total = shard_id * ss + buffer.length →
      written.length = shard_id →
      (processStreamLoop docOf ss records buffer shard_id total written).total
          = total + records.length ∧
      (processStreamLoop docOf ss records buffer shard_id total written).shard_count
        = (processStreamLoop docOf ss records buffer shard_id total written).shards.length
          + (if ss ∣ (processStreamLoop docOf ss records buffer shard_id total
              written).total then 1 else 0) := by
  intro records
  induction records with
  | nil =>
    intro buffer shard_id total written hlen htot hwr
    cases buffer with
    | nil =>
      rw [show processStreamLoop docOf ss [] [] shard_id total written =
          { total := total, shard_count := shard_id + 1, shards := written } from by
        simp [processStreamLoop]]
      refine ⟨by simp, ?_⟩
      have hdvd : ss ∣ total := ⟨shard_id, by
        rw [htot]
        simp [Nat.mul_comm]⟩
      simp [hwr, hdvd]
    | cons d bs =>
      rw [show processStreamLoop docOf ss [] (d :: bs) shard_id total written =
          { total := total, shard_count := shard_id + 1,
            shards := written ++ [(shardName shard_id, d :: bs)] } from by
        simp [processStreamLoop]]
      refine ⟨by simp, ?_⟩
      have hmod : total % ss = (d :: bs).length := by
        rw [htot, Nat.mul_comm shard_id ss, Nat.mul_add_mod]
        exact Nat.mod_eq_of_lt hlen
      have hdvd : ¬ ss ∣ total := by
        intro hd
        have := Nat.dvd_iff_mod_eq_zero.mp hd
        rw [hmod] at this
        simp at this
      simp [hwr, hdvd]
  | cons r rest ih =>
    intro buffer shard_id total written hlen htot hwr
    by_cases hfull : ss ≤ (buffer ++ [docOf r]).length
    · rw [show processStreamLoop docOf ss (r :: rest) buffer shard_id total written =
          processStreamLoop docOf ss rest [] (shard_id + 1) (total + 1)
            (written ++ [(shardName shard_id, buffer ++ [docOf r])]) from by
        simp only [processStreamLoop]
        rw [if_pos hfull]]
      have heq : buffer.length + 1 = ss := by
        simp only [List.length_append, List.length_cons, List.length_nil] at hfull
        omega
      obtain ⟨h1, h2⟩ := ih [] (shard_id + 1) (total + 1)
        (written ++ [(shardName shard_id, buffer ++ [docOf r])])
        (by simpa using h0)
        (by
          simp only [List.length_nil, Nat.add_zero]
          rw [Nat.succ_mul]
          omega)
        (by simp [hwr])
      refine ⟨by rw [h1]; simp; omega, h2⟩
    · rw [show processStreamLoop docOf ss (r :: rest) buffer shard_id total written =
          processStreamLoop docOf ss rest (buffer ++ [docOf r]) shard_id (total + 1)
            written from by
        simp only [processStreamLoop]
        rw [if_neg hfull]]
      obtain ⟨h1, h2⟩ := ih (buffer ++ [docOf r]) shard_id (total + 1) written
        (by simp at hfull ⊢; omega) (by simp; omega) hwr
      refine ⟨by rw [h1]; simp; omega, h2⟩

theorem processStreamLoop_all_buffered (docOf : PyRecord → Doc) (ss : Nat) :
    ∀ (records : List PyRecord) (buffer : List Doc) (shard_id total : Nat)
      (written : List (String × List Doc)),
      buffer.length + records.length < ss →
      processStreamLoop docOf ss records buffer shard_id total written =
        if (buffer ++ records.map docOf).isEmpty then
          { total := total + records.length, shard_count := shard_id + 1,
            shards := written }
        else
          { total := total + records.length, shard_count := shard_id + 1,
            shards := written ++
              [(shardName shard_id, buffer ++ records.map docOf)] } := by
  intro records
  induction records with
  | nil =>
    intro buffer shard_id total written _
    cases buffer <;> simp [processStreamLoop]
  | cons r rest ih =>
    intro buffer shard_id total written hlt
    have hnoflush : ¬ ss ≤ (buffer ++ [docOf r]).length := by
      simp only [List.length_append, List.length_cons, List.length_nil] at hlt ⊢
      omega
    rw [show processStreamLoop docOf ss (r :: rest) buffer shard_id total written =
        processStreamLoop docOf ss rest (buffer ++ [docOf r]) shard_id (total + 1)
          written from by
      simp only [processStreamLoop]
      rw [if_neg hnoflush]]
    rw [ih (buffer ++ [docOf r]) shard_id (total + 1) written
      (by simp at hlt ⊢; omega)]
    have hne : ((buffer ++ [docOf r]) ++ rest.map docOf).isEmpty = false := by
      cases buffer <;> rfl
    have hne2 : (buffer ++ (r :: rest).map docOf).isEmpty = false := by
      cases buffer <;> rfl
    rw [hne, hne2]
    simp only [if_false, Bool.false_eq_true]
    have harr : (buffer ++ [docOf r]) ++ rest.map docOf
        = buffer ++ (r :: rest).map docOf := by
      simp
    rw [harr]
    have htot : total + 1 + rest.length = total + (r :: rest).length := by
      simp
      omega
    rw [htot]

theorem processStreamLoop_exact_fill (docOf : PyRecord → Doc) (ss : Nat) :
    ∀ (records1 : List PyRecord) (buffer : List Doc) (shard_id total : Nat)
      (written : List (String × List Doc)) (records2 : List PyRecord),
      buffer.length < ss → buffer.length + records1.length = ss →
      processStreamLoop docOf ss (records1 ++ records2) buffer shard_id total
          written =
        processStreamLoop docOf ss records2 [] (shard_id + 1)
          (total + records1.length)
          (written ++ [(shardName shard_id, buffer ++ records1.map docOf)]) := by
  intro records1
  induction records1 with
  | nil =>
    intro buffer shard_id total written records2 hlt hsum
    simp only [List.length_nil, Nat.add_zero] at hsum
    omega
  | cons r rest ih =>
    intro buffer shard_id total written records2 hlt hsum
    cases rest with
    | nil =>
      have hfull : ss ≤ (buffer ++ [docOf r]).length := by
        simp only [List.length_cons, List.length_nil] at hsum
        simp
        omega
      rw [show (([r] : List PyRecord) ++ records2) = r :: records2 from rfl]
      rw [show processStreamLoop docOf ss (r :: records2) buffer shard_id total
            written =
          processStreamLoop docOf ss records2 [] (shard_id + 1) (total + 1)
            (written ++ [(shardName shard_id, buffer ++ [docOf r])]) from by
        simp only [processStreamLoop]
        rw [if_pos hfull]]
      simp
    | cons r2 rest2 =>
      have hnoflush : ¬ ss ≤ (buffer ++ [docOf r]).length := by
        simp only [List.length_cons] at hsum
        simp
        omega
      rw [show ((r :: r2 :: rest2) ++ records2) = r :: ((r2 :: rest2) ++ records2)
        from rfl]
      rw [show processStreamLoop docOf ss (r :: ((r2 :: rest2) ++ records2)) buffer
            shard_id total written =
          processStreamLoop docOf ss ((r2 :: rest2) ++ records2)
            (buffer ++ [docOf r]) shard_id (total + 1) written from by
        simp only [processStreamLoop]
        rw [if_neg hnoflush]]
      rw [ih (buffer ++ [docOf r]) shard_id (total + 1) written records2
        (by simp at hnoflush ⊢; omega) (by simp at hsum ⊢; omega)]
      have harr : (buffer ++ [docOf r]) ++ (r2 :: rest2).map docOf
          = buffer ++ (r :: r2 :: rest2).map docOf := by
        simp
      rw [harr]
      have htot : total + 1 + (r2 :: rest2).length
          = total + (r :: r2 :: rest2).length := by
        simp
        omega
      rw [htot]

/-- C1: `_merge_spans` discards spans with `end ≤ start`, sorts and merges the
rest into a minimal (indeed unique) ordered list of disjoint, non-adjacent,
non-empty spans covering the same character positions; `mask_spans` replaces
each merged span by the mask token keeping every character outside the merged
spans verbatim, returns the text unchanged when no valid span remains, and on
spans `[(0,3), (2,5), (10,12)]` merging yields `[(0,5), (10,12)]` and masking
replaces exactly `[0,5)` and `[10,12)` by the token. -/
theorem claim_C1_merge_and_mask (spans : List (Nat × Nat)) (text tok : List Char) :
    ChainSpans (_merge_spans spans)
    ∧ (∀ p, covers (_merge_spans spans) p ↔ validCovers spans p)
    ∧ (∀ l, ChainSpans l → (∀ p, covers l p ↔ covers (_merge_spans spans) p) →
        l = _merge_spans spans)
    ∧ mask_spans text spans tok = maskRender text tok 0 (_merge_spans spans)
    ∧ ((∀ x ∈ spans, x.2 ≤ x.1) → mask_spans text spans tok = text)
    ∧ _merge_spans [(0, 3), (2, 5), (10, 12)] = [(0, 5), (10, 12)]
    ∧ (12 ≤ text.length →
        mask_spans text [(0, 3), (2, 5), (10, 12)] tok =
          tok ++ pySlice text 5 10 ++ (tok ++ text.drop 12)) := by
  refine ⟨merge_spans_chain spans, merge_spans_covers spans, ?_,
    mask_spans_eq_render text spans tok,
    fun h => mask_spans_id_of_invalid text tok h, by decide, ?_⟩
  · intro l hl hcov
    exact chainSpans_ext l (_merge_spans spans) hl (merge_spans_chain spans) hcov
  · intro _
    rw [mask_spans_eq_render text [(0, 3), (2, 5), (10, 12)] tok,
      show _merge_spans [(0, 3), (2, 5), (10, 12)] = [(0, 5), (10, 12)] from by
        decide]
    simp [maskRender, pySlice]

/-- Witness for C1 at concrete inputs: invalid spans leave the text unchanged,
and the example spans merge and mask as claimed over a 12-character text. -/
theorem claim_C1_merge_and_mask_witness :
    (∀ x ∈ ([(2, 2), (5, 3)] : List (Nat × Nat)), x.2 ≤ x.1)
    ∧ mask_spans "hello world!".toList [(2, 2), (5, 3)] "<PII>".toList
        = "hello world!".toList
    ∧ 12 ≤ "hello world!".toList.length
    ∧ mask_spans "hello world!".toList [(0, 3), (2, 5), (10, 12)] "<PII>".toList
        = "<PII>".toList ++ pySlice "hello world!".toList 5 10
          ++ ("<PII>".toList ++ "hello world!".toList.drop 12)
    ∧ ChainSpans ([(0, 5), (10, 12)] : List (Nat × Nat))
    ∧ ([(0, 5), (10, 12)] : List (Nat × Nat))
        = _merge_spans [(0, 3), (2, 5), (10, 12)] :=
  ⟨by decide,
   (claim_C1_merge_and_mask [(2, 2), (5, 3)] "hello world!".toList
     "<PII>".toList).2.2.2.2.1 (by decide),
   by decide,
   (claim_C1_merge_and_mask [(0, 3), (2, 5), (10, 12)] "hello world!".toList
     "<PII>".toList).2.2.2.2.2.2 (by decide),
   ⟨by decide, List.chain'_cons.mpr ⟨by decide, List.chain'_singleton _⟩⟩,
   (claim_C1_merge_and_mask [(0, 3), (2, 5), (10, 12)] [] []).2.2.1
     [(0, 5), (10, 12)]
     ⟨by decide, List.chain'_cons.mpr ⟨by decide, List.chain'_singleton _⟩⟩
     (by
       rw [show _merge_spans [(0, 3), (2, 5), (10, 12)] = [(0, 5), (10, 12)] from
         by decide]
       exact fun p => Iff.rfl)⟩

/-- C2 counterexample: with `shard_size = 1` and one record, exactly one shard
is written but `process_stream` returns shard count 2; with zero records no
shard is written but it returns shard count 1.  In both named cases the
returned count is not the number of shards actually written. -/
theorem claim_C2_counterexample :
    (process_stream "ds" [[("id", PVal.str "r1")]] 1 (fun _ s => s)
        (fun _ _ _ _ => Except.ok []) {} {} []).shard_count = 2
    ∧ (process_stream "ds" [[("id", PVal.str "r1")]] 1 (fun _ s => s)
        (fun _ _ _ _ => Except.ok []) {} {} []).shards.length = 1
    ∧ (process_stream "ds" ([] : List PyRecord) 1 (fun _ s => s)
        (fun _ _ _ _ => Except.ok []) {} {} []).shard_count = 1
    ∧ (process_stream "ds" ([] : List PyRecord) 1 (fun _ s => s)
        (fun _ _ _ _ => Except.ok []) {} {} []).shards.length = 0 :=
  ⟨rfl, rfl, rfl, rfl⟩

/-- C2 amended: `process_stream` returns `total` equal to the number of
records, and a shard count of one more than the number of full shards flushed;
this equals the number of shards actually written exactly when the total is
not a multiple of `shard_size` (a final partial shard exists), and exceeds
the number written by one when the total is zero or an exact positive
multiple of `shard_size`. -/
theorem claim_C2_amended (dataset_name : String) (records : List PyRecord)
    (shard_size : Nat) (f : String → List Char → List Char)
    (tag : String → String → List Char → String → Except String (List (Nat × Nat)))
    (pcfg : ProcessingCfg) (dcfg : DatasetCfg) (run_md : MDict)
    (h : 0 < shard_size) :
    (process_stream dataset_name records shard_size f tag pcfg dcfg run_md).total
        = records.length
    ∧ (process_stream dataset_name records shard_size f tag pcfg dcfg
          run_md).shard_count
      = (process_stream dataset_name records shard_size f tag pcfg dcfg
          run_md).shards.length
        + (if shard_size ∣ records.length then 1 else 0) := by
  obtain ⟨h1, h2⟩ := processStreamLoop_count
    (fun r => process_doc f tag pcfg (_build_doc dataset_name r dcfg
      (combineExtraMd pcfg.metadata dcfg.metadata run_md)))
    shard_size h records [] 0 0 [] (by simpa using h) (by simp) rfl
  have he : process_stream dataset_name records shard_size f tag pcfg dcfg run_md
      = processStreamLoop
        (fun r => process_doc f tag pcfg (_build_doc dataset_name r dcfg
          (combineExtraMd pcfg.metadata dcfg.metadata run_md)))
        shard_size records [] 0 0 [] := rfl
  rw [he]
  have h1' := h1
  rw [Nat.zero_add] at h1'
  refine ⟨h1', ?_⟩
  rw [h2, h1']

/-- Witness for C2 amended at `shard_size = 2` over three records. -/
theorem claim_C2_amended_witness :
    0 < 2
    ∧ ((process_stream "ds" [[("id", PVal.str "a")], [("id", PVal.str "b")],
          [("id", PVal.str "c")]] 2 (fun _ s => s)
          (fun _ _ _ _ => Except.ok []) {} {} []).total = 3
      ∧ (process_stream "ds" [[("id", PVal.str "a")], [("id", PVal.str "b")],
          [("id", PVal.str "c")]] 2 (fun _ s => s)
          (fun _ _ _ _ => Except.ok []) {} {} []).shard_count
        = (process_stream "ds" [[("id", PVal.str "a")], [("id", PVal.str "b")],
            [("id", PVal.str "c")]] 2 (fun _ s => s)
            (fun _ _ _ _ => Except.ok []) {} {} []).shards.length
          + (if 2 ∣ ([[("id", PVal.str "a")], [("id", PVal.str "b")],
              [("id", PVal.str "c")]] : List PyRecord).length then 1 else 0)) :=
  ⟨by decide,
   claim_C2_amended "ds" [[("id", PVal.str "a")], [("id", PVal.str "b")],
     [("id", PVal.str "c")]] 2 (fun _ s => s) (fun _ _ _ _ => Except.ok [])
     {} {} [] (by decide)⟩

theorem shardName_zero : shardName 0 = "part-00000.jsonl" := by decide

theorem shardName_one : shardName 1 = "part-00001.jsonl" := by decide

/-- C5: with `shard_size = 10000`, exactly 10000 records produce exactly one
shard `part-00000.jsonl` holding all 10000 processed records with zero
leftover, and exactly 10001 records produce `part-00000.jsonl` with the first
10000 and `part-00001.jsonl` with the remaining single record. -/
theorem claim_C5_sharding (dataset_name : String)
    (f : String → List Char → List Char)
    (tag : String → String → List Char → String → Except String (List (Nat × Nat)))
    (pcfg : ProcessingCfg) (dcfg : DatasetCfg) (run_md : MDict)
    (records1 records2 : List PyRecord)
    (h1 : records1.length = 10000) (h2 : records2.length = 10001) :
    (process_stream dataset_name records1 10000 f tag pcfg dcfg run_md).shards
      = [("part-00000.jsonl",
          records1.map (fun r => process_doc f tag pcfg (_build_doc dataset_name r
            dcfg (combineExtraMd pcfg.metadata dcfg.metadata run_md))))]
    ∧ (process_stream dataset_name records1 10000 f tag pcfg dcfg run_md).total
        = 10000
    ∧ (process_stream dataset_name records2 10000 f tag pcfg dcfg run_md).shards
      = [("part-00000.jsonl",
          (records2.map (fun r => process_doc f tag pcfg (_build_doc dataset_name r
            dcfg (combineExtraMd pcfg.metadata dcfg.metadata run_md)))).take 10000),
         ("part-00001.jsonl",
          (records2.map (fun r => process_doc f tag pcfg (_build_doc dataset_name r
            dcfg (combineExtraMd pcfg.metadata dcfg.metadata run_md)))).drop 10000)]
    ∧ ((records2.map (fun r => process_doc f tag pcfg (_build_doc dataset_name r
          dcfg (combineExtraMd pcfg.metadata dcfg.metadata run_md)))).drop
        10000).length = 1 := by
  have he1 : ∀ (rs : List PyRecord),
      process_stream dataset_name rs 10000 f tag pcfg dcfg run_md
      = processStreamLoop
        (fun r => process_doc f tag pcfg (_build_doc dataset_name r dcfg
          (combineExtraMd pcfg.metadata dcfg.metadata run_md)))
        10000 rs [] 0 0 [] := fun rs => rfl
  refine ⟨?_, ?_, ?_, ?_⟩
  · rw [he1 records1]
    have := processStreamLoop_exact_fill
      (fun r => process_doc f tag pcfg (_build_doc dataset_name r dcfg
        (combineExtraMd pcfg.metadata dcfg.metadata run_md)))
      10000 records1 [] 0 0 [] [] (by simp) (by simp [h1])
    rw [List.append_nil] at this
    rw [this]
    simp [processStreamLoop, shardName_zero]
  · rw [he1 records1]
    have := processStreamLoop_exact_fill
      (fun r => process_doc f tag pcfg (_build_doc dataset_name r dcfg
        (combineExtraMd pcfg.metadata dcfg.metadata run_md)))
      10000 records1 [] 0 0 [] [] (by simp) (by simp [h1])
    rw [List.append_nil] at this
    rw [this]
    simp [processStreamLoop, h1]
  · rw [he1 records2]
    conv_lhs => rw [← List.take_append_drop 10000 records2]
    have htk : (records2.take 10000).length = 10000 := by
      simp [List.length_take, h2]
    have := processStreamLoop_exact_fill
      (fun r => process_doc f tag pcfg (_build_doc dataset_name r dcfg
        (combineExtraMd pcfg.metadata dcfg.metadata run_md)))
      10000 (records2.take 10000) [] 0 0 [] (records2.drop 10000)
      (by simp) (by simp [htk])
    rw [this]
    have hdr : (records2.drop 10000).length = 1 := by
      simp [List.length_drop, h2]
    have hab := processStreamLoop_all_buffered
      (fun r => process_doc f tag pcfg (_build_doc dataset_name r dcfg
        (combineExtraMd pcfg.metadata dcfg.metadata run_md)))
      10000 (records2.drop 10000) [] 1 (0 + (records2.take 10000).length)
      ([] ++ [(shardName 0, [] ++ (records2.take 10000).map
        (fun r => process_doc f tag pcfg (_build_doc dataset_name r dcfg
          (combineExtraMd pcfg.metadata dcfg.metadata run_md))))])
      (by simp [hdr])
    rw [hab]
    simp only [List.nil_append]
    have hne : ((records2.drop 10000).map
        (fun r => process_doc f tag pcfg (_build_doc dataset_name r dcfg
          (combineExtraMd pcfg.metadata dcfg.metadata run_md)))).isEmpty = false := by
      rcases hmap : (records2.drop 10000).map
          (fun r => process_doc f tag pcfg (_build_doc dataset_name r dcfg
            (combineExtraMd pcfg.metadata dcfg.metadata run_md))) with _ | ⟨a, t⟩
      · exfalso
        have := congrArg List.length hmap
        simp at this
        omega
      · rfl
    rw [hne]
    simp only [Bool.false_eq_true, if_false]
    rw [shardName_zero, shardName_one]
    simp [List.map_take, List.map_drop, htk]
  · simp [List.length_drop, h2]

/-- Witness for C5 over concrete replicated record lists. -/
theorem claim_C5_sharding_witness :
    (List.replicate 10000 ([("id", PVal.str "x")] : PyRecord)).length = 10000
    ∧ (List.replicate 10001 ([("id", PVal.str "x")] : PyRecord)).length = 10001
    ∧ (process_stream "ds" (List.replicate 10000 [("id", PVal.str "x")]) 10000
          (fun _ s => s) (fun _ _ _ _ => Except.ok []) {} {} []).shards
        = [("part-00000.jsonl",
            (List.replicate 10000 ([("id", PVal.str "x")] : PyRecord)).map
              (fun r => process_doc (fun _ s => s) (fun _ _ _ _ => Except.ok [])
                {} (_build_doc "ds" r {}
                  (combineExtraMd ({} : ProcessingCfg).metadata
                    ({} : DatasetCfg).metadata []))))] :=
  ⟨List.length_replicate 10000 _, List.length_replicate 10001 _,
   (claim_C5_sharding "ds" (fun _ s => s) (fun _ _ _ _ => Except.ok []) {} {} []
     (List.replicate 10000 [("id", PVal.str "x")])
     (List.replicate 10001 [("id", PVal.str "x")])
     (List.length_replicate 10000 _) (List.length_replicate 10001 _)).1⟩

/-- C4: `apply_limit` passes the stream through for mode `"full"` or limit
type `"none"`; in `"test"` mode it takes the first `value` items for type
`"rows"` and the first `floor(10000 * value / 100)` items for type
`"percent"` (5000 at `value = 50`), and fails with an error naming the
unknown type otherwise. -/
theorem claim_C4_apply_limit {α : Type} (dataset : List α) (t : String)
    (v : Nat) (mode : String) :
    ((mode = "full" ∨ t = "none") → apply_limit dataset t v mode
        = Except.ok dataset)
    ∧ (mode = "test" → t = "rows" → apply_limit dataset t v mode
        = Except.ok (dataset.take v))
    ∧ (mode = "test" → t = "percent" → apply_limit dataset t v mode
        = Except.ok (dataset.take (10000 * v / 100)))
    ∧ (mode = "test" → t ≠ "none" → t ≠ "rows" → t ≠ "percent" →
        apply_limit dataset t v mode
          = Except.error ("Unknown limit type: " ++ t))
    ∧ 10000 * 50 / 100 = 5000 := by
  refine ⟨?_, ?_, ?_, ?_, by decide⟩
  · intro h
    simp [apply_limit, h]
  · intro hm ht
    subst hm
    subst ht
    simp [apply_limit]
  · intro hm ht
    subst hm
    subst ht
    simp [apply_limit]
  · intro hm h1 h2 h3
    subst hm
    simp [apply_limit, h1, h2, h3]

/-- Witness for C4 on a 20-item stream: full mode passes everything, rows 5
takes the first 5, percent 50 takes the first 5000, and an unknown type
errors. -/
theorem claim_C4_apply_limit_witness :
    (("full" = "full" ∨ "rows" = "none")
      ∧ apply_limit (List.range 20) "rows" 5 "full" = Except.ok (List.range 20))
    ∧ apply_limit (List.range 20) "rows" 5 "test"
        = Except.ok ((List.range 20).take 5)
    ∧ apply_limit (List.range 20) "percent" 50 "test"
        = Except.ok ((List.range 20).take (10000 * 50 / 100))
    ∧ apply_limit (List.range 20) "bogus" 5 "test"
        = Except.error ("Unknown limit type: " ++ "bogus") :=
  ⟨⟨Or.inl rfl,
    (claim_C4_apply_limit (List.range 20) "rows" 5 "full").1 (Or.inl rfl)⟩,
   (claim_C4_apply_limit (List.range 20) "rows" 5 "test").2.1 rfl rfl,
   (claim_C4_apply_limit (List.range 20) "percent" 50 "test").2.2.1 rfl rfl,
   (claim_C4_apply_limit (List.range 20) "bogus" 5 "test").2.2.2.1 rfl
     (by decide) (by decide) (by decide)⟩

/-- C10: a record whose configured text field is present but bound to `None`
yields document text `"None"` (Python's string coercion of `None`), not the
empty string; the empty-text default applies exactly when the field is
absent. -/
theorem claim_C10_null_text (dataset_name : String) (record : PyRecord)
    (dcfg : DatasetCfg) (extra : MDict) :
    (List.lookup dcfg.text_field record = some PVal.none →
      (_build_doc dataset_name record dcfg extra).text = "None".toList)
    ∧ (List.lookup dcfg.text_field record = none →
      (_build_doc dataset_name record dcfg extra).text = []) := by
  constructor
  · intro h
    simp [_build_doc, h, pyStr]
  · intro h
    simp [_build_doc, h]

/-- Witness for C10: `text: None` gives text `"None"`; an absent field gives
empty text. -/
theorem claim_C10_null_text_witness :
    (List.lookup "text" ([("text", PVal.none)] : PyRecord) = some PVal.none
      ∧ (_build_doc "ds" [("text", PVal.none)] {} []).text = "None".toList)
    ∧ (List.lookup "text" ([("other", PVal.int 3)] : PyRecord) = none
      ∧ (_build_doc "ds" [("other", PVal.int 3)] {} []).text = []) :=
  ⟨⟨rfl, (claim_C10_null_text "ds" [("text", PVal.none)] {} []).1 rfl⟩,
   ⟨rfl, (claim_C10_null_text "ds" [("other", PVal.int 3)] {} []).2 rfl⟩⟩

/-- C3 counterexample: for a record with a *present but falsy* `id` (the empty
string) and `_id: "known"`, the code's Python `or`-chain skips the present
`id` and uses `"known"`, while the claim's "first field present" rule demands
the empty string.  So `_build_doc` does not implement "first one present". -/
theorem claim_C3_counterexample :
    (_build_doc "ds" [("id", PVal.str ""), ("_id", PVal.str "known")] {} []).id
        = "known"
    ∧ specClaimedId "ds" [("id", PVal.str ""), ("_id", PVal.str "known")]
        (_build_doc "ds" [("id", PVal.str ""), ("_id", PVal.str "known")] {} []).text
        = ""
    ∧ (_build_doc "ds" [("id", PVal.str ""), ("_id", PVal.str "known")] {} []).id
        ≠ specClaimedId "ds" [("id", PVal.str ""), ("_id", PVal.str "known")]
          (_build_doc "ds" [("id", PVal.str ""), ("_id", PVal.str "known")]
            {} []).text :=
  ⟨rfl, rfl, by decide⟩

theorem build_doc_id_match (dataset_name : String) (record : PyRecord)
    (dcfg : DatasetCfg) (extra : MDict) :
    (_build_doc dataset_name record dcfg extra).id
      = (match pyOr ((List.lookup "id" record).getD PVal.none)
            (pyOr ((List.lookup "_id" record).getD PVal.none)
              ((List.lookup "doc_id" record).getD PVal.none)) with
         | PVal.none => stable_id [some dataset_name.toList,
             some (_build_doc dataset_name record dcfg extra).text]
         | v => pyStr v) := rfl

/-- C3 amended: `_build_doc` takes the first *truthy* value among `id`, `_id`,
`doc_id` (Python `or`-chain) coerced to string — in particular `id: "abc123"`
always wins regardless of text — and falls back to
`stable_id(dataset_name, text)` exactly when the chain result is `None`
(all three falsy and `doc_id` absent or `None`); a present but falsy non-`None`
`doc_id` is stringified instead.  `stable_id` is the lowercase SHA-1 hex
digest over the UTF-8 encodings of its parts, each followed by a NUL byte. -/
theorem claim_C3_amended (dataset_name : String) (record : PyRecord)
    (dcfg : DatasetCfg) (extra : MDict) :
    (truthy ((List.lookup "id" record).getD PVal.none) = true →
      (_build_doc dataset_name record dcfg extra).id
        = pyStr ((List.lookup "id" record).getD PVal.none))
    ∧ (List.lookup "id" record = some (PVal.str "abc123") →
      (_build_doc dataset_name record dcfg extra).id = "abc123")
    ∧ (truthy ((List.lookup "id" record).getD PVal.none) = false →
       truthy ((List.lookup "_id" record).getD PVal.none) = true →
      (_build_doc dataset_name record dcfg extra).id
        = pyStr ((List.lookup "_id" record).getD PVal.none))
    ∧ (truthy ((List.lookup "id" record).getD PVal.none) = false →
       truthy ((List.lookup "_id" record).getD PVal.none) = false →
       (List.lookup "doc_id" record).getD PVal.none ≠ PVal.none →
      (_build_doc dataset_name record dcfg extra).id
        = pyStr ((List.lookup "doc_id" record).getD PVal.none))
    ∧ (truthy ((List.lookup "id" record).getD PVal.none) = false →
       truthy ((List.lookup "_id" record).getD PVal.none) = false →
       (List.lookup "doc_id" record).getD PVal.none = PVal.none →
      (_build_doc dataset_name record dcfg extra).id
        = stable_id [some dataset_name.toList,
            some (_build_doc dataset_name record dcfg extra).text])
    ∧ (∀ a b : List Char, stable_id [some a, some b]
        = sha1Hex (utf8Encode a ++ [0] ++ (utf8Encode b ++ [0]))) := by
  refine ⟨?_, ?_, ?_, ?_, ?_, ?_⟩
  · intro h
    have e1 : pyOr ((List.lookup "id" record).getD PVal.none)
        (pyOr ((List.lookup "_id" record).getD PVal.none)
          ((List.lookup "doc_id" record).getD PVal.none))
        = (List.lookup "id" record).getD PVal.none := by
      simp [pyOr, h]
    rw [build_doc_id_match, e1]
    rcases hv : (List.lookup "id" record).getD PVal.none with _ | b | n | s
    · rw [hv] at h
      cases h
    · rfl
    · rfl
    · rfl
  · intro h
    have e0 : (List.lookup "id" record).getD PVal.none = PVal.str "abc123" := by
      rw [h]
      rfl
    have e1 : pyOr ((List.lookup "id" record).getD PVal.none)
        (pyOr ((List.lookup "_id" record).getD PVal.none)
          ((List.lookup "doc_id" record).getD PVal.none))
        = PVal.str "abc123" := by
      rw [e0]
      rfl
    rw [build_doc_id_match, e1]
    rfl
  · intro h1 h2
    have e1 : pyOr ((List.lookup "id" record).getD PVal.none)
        (pyOr ((List.lookup "_id" record).getD PVal.none)
          ((List.lookup "doc_id" record).getD PVal.none))
        = (List.lookup "_id" record).getD PVal.none := by
      simp [pyOr, h1, h2]
    rw [build_doc_id_match, e1]
    rcases hv : (List.lookup "_id" record).getD PVal.none with _ | b | n | s
    · rw [hv] at h2
      cases h2
    · rfl
    · rfl
    · rfl
  · intro h1 h2 h3
    have e1 : pyOr ((List.lookup "id" record).getD PVal.none)
        (pyOr ((List.lookup "_id" record).getD PVal.none)
          ((List.lookup "doc_id" record).getD PVal.none))
        = (List.lookup "doc_id" record).getD PVal.none := by
      simp [pyOr, h1, h2]
    rw [build_doc_id_match, e1]
    rcases hv : (List.lookup "doc_id" record).getD PVal.none with _ | b | n | s
    · exact absurd hv h3
    · rfl
    · rfl
    · rfl
  · intro h1 h2 h3
    have e1 : pyOr ((List.lookup "id" record).getD PVal.none)
        (pyOr ((List.lookup "_id" record).getD PVal.none)
          ((List.lookup "doc_id" record).getD PVal.none))
        = PVal.none := by
      simp [pyOr, h1, h2, h3]
    rw [build_doc_id_match, e1]
  · intro a b
    simp [stable_id]

/-- Witness for C3 amended at concrete records exercising each branch. -/
theorem claim_C3_amended_witness :
    (truthy ((List.lookup "id" ([("id", PVal.str "abc123")] : PyRecord)).getD
        PVal.none) = true
      ∧ (_build_doc "ds" [("id", PVal.str "abc123")] {} []).id
          = pyStr ((List.lookup "id" ([("id", PVal.str "abc123")] : PyRecord)).getD
            PVal.none))
    ∧ (truthy ((List.lookup "id" ([("id", PVal.str ""), ("_id", PVal.str "known")]
          : PyRecord)).getD PVal.none) = false
      ∧ (_build_doc "ds" [("id", PVal.str ""), ("_id", PVal.str "known")] {} []).id
          = pyStr ((List.lookup "_id" ([("id", PVal.str ""),
              ("_id", PVal.str "known")] : PyRecord)).getD PVal.none))
    ∧ (_build_doc "ds" [("text", PVal.str "t")] {} []).id
        = stable_id [some "ds".toList,
            some (_build_doc "ds" [("text", PVal.str "t")] {} []).text] :=
  ⟨⟨rfl, (claim_C3_amended "ds" [("id", PVal.str "abc123")] {} []).1 rfl⟩,
   ⟨rfl, (claim_C3_amended "ds" [("id", PVal.str ""), ("_id", PVal.str "known")]
     {} []).2.2.1 rfl rfl⟩,
   (claim_C3_amended "ds" [("text", PVal.str "t")] {} []).2.2.2.2.1 rfl rfl rfl⟩

/-- C6: any error in the PII tagging/masking step is caught, the document is
returned normally with `metadata.dolma_toolkit_error` set to the error's
string form, the text is exactly the normalized (unmasked) text, and no other
field changes. -/
theorem claim_C6_masking_error_caught (f : String → List Char → List Char)
    (tag : String → String → List Char → String → Except String (List (Nat × Nat)))
    (pcfg : ProcessingCfg) (doc : Doc) (e : String)
    (hen : pcfg.enabled = true) (hdol : pcfg.dolma_toolkit.enabled = true)
    (htag : tag pcfg.dolma_toolkit.pii_tagger doc.id (normTextOf f pcfg doc)
      doc.source = Except.error e) :
    process_doc f tag pcfg doc =
      { doc with
        text := normTextOf f pcfg doc
        metadata := dictSet doc.metadata "dolma_toolkit_error" (MVal.str e) }
    ∧ List.lookup "dolma_toolkit_error" (process_doc f tag pcfg doc).metadata
        = some (MVal.str e)
    ∧ (process_doc f tag pcfg doc).text = normTextOf f pcfg doc
    ∧ (process_doc f tag pcfg doc).id = doc.id
    ∧ (process_doc f tag pcfg doc).source = doc.source := by
  have h := process_doc_tag_error f tag pcfg doc e hen hdol htag
  refine ⟨h, ?_, by rw [h], by rw [h], by rw [h]⟩
  rw [h]
  exact lookup_dictSet doc.metadata "dolma_toolkit_error" (MVal.str e)

/-- Witness for C6 with an always-failing tagger on a concrete document. -/
theorem claim_C6_masking_error_caught_witness :
    ({ enabled := true, dolma_toolkit := { enabled := true } }
        : ProcessingCfg).enabled = true
    ∧ ((fun _ _ _ _ => Except.error "boom")
        ({ enabled := true, dolma_toolkit := { enabled := true } }
          : ProcessingCfg).dolma_toolkit.pii_tagger "d1"
        (normTextOf (fun _ s => s)
          { enabled := true, dolma_toolkit := { enabled := true } }
          { id := "d1", text := "t".toList, source := "s", created := PVal.str "",
            added := PVal.str "", version := PVal.none, metadata := [] }) "s"
        = (Except.error "boom" : Except String (List (Nat × Nat))))
    ∧ List.lookup "dolma_toolkit_error"
        (process_doc (fun _ s => s) (fun _ _ _ _ => Except.error "boom")
          { enabled := true, dolma_toolkit := { enabled := true } }
          { id := "d1", text := "t".toList, source := "s", created := PVal.str "",
            added := PVal.str "", version := PVal.none,
            metadata := [] }).metadata
        = some (MVal.str "boom") :=
  ⟨rfl, rfl,
   (claim_C6_masking_error_caught (fun _ s => s)
     (fun _ _ _ _ => Except.error "boom")
     { enabled := true, dolma_toolkit := { enabled := true } }
     { id := "d1", text := "t".toList, source := "s", created := PVal.str "",
       added := PVal.str "", version := PVal.none, metadata := [] }
     "boom" rfl rfl rfl).2.1⟩

/-- C8: with processing and the dolma toolkit enabled and a non-empty raw span
list from the tagger, `process_doc` sets `metadata.pii_masked = true`, sets
`metadata.pii_span_count` to the raw span count (before merging), and replaces
the text by `mask_spans` of the normalized text, spans and configured mask
token. -/
theorem claim_C8_masking_metadata (f : String → List Char → List Char)
    (tag : String → String → List Char → String → Except String (List (Nat × Nat)))
    (pcfg : ProcessingCfg) (doc : Doc) (spans : List (Nat × Nat))
    (hen : pcfg.enabled = true) (hdol : pcfg.dolma_toolkit.enabled = true)
    (htag : tag pcfg.dolma_toolkit.pii_tagger doc.id (normTextOf f pcfg doc)
      doc.source = Except.ok spans) (hne : spans ≠ []) :
    (process_doc f tag pcfg doc).text
        = mask_spans (normTextOf f pcfg doc) spans pcfg.dolma_toolkit.mask_token
    ∧ List.lookup "pii_masked" (process_doc f tag pcfg doc).metadata
        = some (MVal.bool true)
    ∧ List.lookup "pii_span_count" (process_doc f tag pcfg doc).metadata
        = some (MVal.int spans.length) := by
  have h := process_doc_tag_ok f tag pcfg doc spans hen hdol htag hne
  refine ⟨by rw [h], ?_, ?_⟩
  · rw [h]
    show List.lookup "pii_masked"
      (dictSet (dictSet doc.metadata "pii_masked" (MVal.bool true))
        "pii_span_count" (MVal.int spans.length)) = some (MVal.bool true)
    rw [lookup_dictSet_ne _ _ (by decide)]
    exact lookup_dictSet doc.metadata "pii_masked" (MVal.bool true)
  · rw [h]
    exact lookup_dictSet _ "pii_span_count" (MVal.int spans.length)

/-- Witness for C8 with a tagger returning two raw overlapping spans on a
concrete document. -/
theorem claim_C8_masking_metadata_witness :
    (([(0, 2), (1, 3)] : List (Nat × Nat)) ≠ [])
    ∧ (process_doc (fun _ s => s) (fun _ _ _ _ => Except.ok [(0, 2), (1, 3)])
        { enabled := true, dolma_toolkit := { enabled := true } }
        { id := "d1", text := "abcd".toList, source := "s",
          created := PVal.str "", added := PVal.str "", version := PVal.none,
          metadata := [] }).text
      = mask_spans (normTextOf (fun _ s => s)
          { enabled := true, dolma_toolkit := { enabled := true } }
          { id := "d1", text := "abcd".toList, source := "s",
            created := PVal.str "", added := PVal.str "", version := PVal.none,
            metadata := [] }) [(0, 2), (1, 3)]
          ({ enabled := true, dolma_toolkit := { enabled := true } }
            : ProcessingCfg).dolma_toolkit.mask_token
    ∧ List.lookup "pii_span_count"
        (process_doc (fun _ s => s) (fun _ _ _ _ => Except.ok [(0, 2), (1, 3)])
          { enabled := true, dolma_toolkit := { enabled := true } }
          { id := "d1", text := "abcd".toList, source := "s",
            created := PVal.str "", added := PVal.str "", version := PVal.none,
            metadata := [] }).metadata
      = some (MVal.int 2) :=
  ⟨by decide,
   (claim_C8_masking_metadata (fun _ s => s)
     (fun _ _ _ _ => Except.ok [(0, 2), (1, 3)])
     { enabled := true, dolma_toolkit := { enabled := true } }
     { id := "d1", text := "abcd".toList, source := "s", created := PVal.str "",
       added := PVal.str "", version := PVal.none, metadata := [] }
     [(0, 2), (1, 3)] rfl rfl rfl (by decide)).1,
   (claim_C8_masking_metadata (fun _ s => s)
     (fun _ _ _ _ => Except.ok [(0, 2), (1, 3)])
     { enabled := true, dolma_toolkit := { enabled := true } }
     { id := "d1", text := "abcd".toList, source := "s", created := PVal.str "",
       added := PVal.str "", version := PVal.none, metadata := [] }
     [(0, 2), (1, 3)] rfl rfl rfl (by decide)).2.2⟩

theorem processStreamLoop_shards_pred (docOf : PyRecord → Doc) (ss : Nat)
    (P : Doc → Prop) :
    ∀ (records : List PyRecord) (buffer : List Doc) (shard_id total : Nat)
      (written : List (String × List Doc)),
      (∀ nm chunk, (nm, chunk) ∈ written → ∀ d ∈ chunk, P d) →
      (∀ d ∈ buffer, P d) → (∀ r ∈ records, P (docOf r)) →
      ∀ nm chunk,
        (nm, chunk) ∈ (processStreamLoop docOf ss records buffer shard_id total
          written).shards → ∀ d ∈ chunk, P d := by
  intro records
  induction records with
  | nil =>
    intro buffer shard_id total written hw hb _ nm chunk hmem d hd
    by_cases hbe : buffer.isEmpty
    · rw [show processStreamLoop docOf ss [] buffer shard_id total written
          = { total := total, shard_count := shard_id + 1, shards := written }
        from by simp [processStreamLoop, hbe]] at hmem
      exact hw nm chunk hmem d hd
    · rw [show processStreamLoop docOf ss [] buffer shard_id total written
          = { total := total, shard_count := shard_id + 1,
              shards := written ++ [(shardName shard_id, buffer)] }
        from by simp [processStreamLoop, hbe]] at hmem
      simp only [List.mem_append, List.mem_singleton] at hmem
      rcases hmem with hmem | hmem
      · exact hw nm chunk hmem d hd
      · cases hmem
        exact hb d hd
  | cons r rest ih =>
    intro buffer shard_id total written hw hb hr nm chunk hmem d hd
    by_cases hfull : ss ≤ (buffer ++ [docOf r]).length
    · rw [show processStreamLoop docOf ss (r :: rest) buffer shard_id total written
          = processStreamLoop docOf ss rest [] (shard_id + 1) (total + 1)
            (written ++ [(shardName shard_id, buffer ++ [docOf r])]) from by
        simp only [processStreamLoop]
        rw [if_pos hfull]] at hmem
      refine ih [] (shard_id + 1) (total + 1)
        (written ++ [(shardName shard_id, buffer ++ [docOf r])]) ?_
        (by simp) (fun x hx => hr x (List.mem_cons_of_mem _ hx)) nm chunk hmem d hd
      intro nm2 chunk2 hmem2 d2 hd2
      simp only [List.mem_append, List.mem_singleton] at hmem2
      rcases hmem2 with hmem2 | hmem2
      · exact hw nm2 chunk2 hmem2 d2 hd2
      · cases hmem2
        rcases List.mem_append.mp hd2 with h2 | h2
        · exact hb d2 h2
        · rw [List.mem_singleton.mp h2]
          exact hr r (List.mem_cons_self ..)
    · rw [show processStreamLoop docOf ss (r :: rest) buffer shard_id total written
          = processStreamLoop docOf ss rest (buffer ++ [docOf r]) shard_id
            (total + 1) written from by
        simp only [processStreamLoop]
        rw [if_neg hfull]] at hmem
      refine ih (buffer ++ [docOf r]) shard_id (total + 1) written hw ?_
        (fun x hx => hr x (List.mem_cons_of_mem _ hx)) nm chunk hmem d hd
      intro d2 hd2
      rcases List.mem_append.mp hd2 with h2 | h2
      · exact hb d2 h2
      · rw [List.mem_singleton.mp h2]
        exact hr r (List.mem_cons_self ..)

/-- C9: the per-document metadata is the shallow merge of global then dataset
metadata (dataset keys win), with — when run metadata is non-empty — a `run`
sub-key holding the run metadata merged over any pre-existing `run` dict (run
keys winning there only); in particular global `{a:1, b:1}`, dataset
`{b:2, c:3}` and run `{run_id:"X"}` give `{a:1, b:2, c:3, run:{run_id:"X"}}`,
and every document produced by `process_stream` (with the PII step disabled,
which is the only step that adds further metadata keys) carries exactly the
combined metadata. -/
theorem claim_C9_metadata_merge (g d r : MDict) :
    (∀ k, ((d.map Prod.fst).Nodup →
      List.lookup k (pyDictMerge g d) = (List.lookup k d).or (List.lookup k g)))
    ∧ (r = [] → combineExtraMd g d r = pyDictMerge g d)
    ∧ (r ≠ [] → ∀ k, k ≠ "run" →
        List.lookup k (combineExtraMd g d r) = List.lookup k (pyDictMerge g d))
    ∧ (r ≠ [] → List.lookup "run" (combineExtraMd g d r)
        = some (MVal.dict (match List.lookup "run" (pyDictMerge g d) with
            | some (MVal.dict existing) => pyDictMerge existing r
            | _ => r)))
    ∧ combineExtraMd [("a", MVal.int 1), ("b", MVal.int 1)]
        [("b", MVal.int 2), ("c", MVal.int 3)] [("run_id", MVal.str "X")]
      = [("a", MVal.int 1), ("b", MVal.int 2), ("c", MVal.int 3),
         ("run", MVal.dict [("run_id", MVal.str "X")])]
    ∧ (∀ (dataset_name : String) (records : List PyRecord) (shard_size : Nat)
        (f : String → List Char → List Char)
        (tag : String → String → List Char → String →
          Except String (List (Nat × Nat)))
        (pcfg : ProcessingCfg) (dcfg : DatasetCfg) (run_md : MDict),
        pcfg.dolma_toolkit.enabled = false →
        ∀ nm chunk, (nm, chunk) ∈ (process_stream dataset_name records shard_size
            f tag pcfg dcfg run_md).shards →
          ∀ doc ∈ chunk, doc.metadata
            = combineExtraMd pcfg.metadata dcfg.metadata run_md) := by
  refine ⟨fun k hnd => lookup_pyDictMerge g d k hnd, ?_, ?_, ?_, rfl, ?_⟩
  · intro hr
    subst hr
    simp [combineExtraMd]
  · intro hr k hk
    have hre : r.isEmpty = false := by
      cases r with
      | nil => exact absurd rfl hr
      | cons a l => rfl
    unfold combineExtraMd
    rw [hre]
    simp only [Bool.not_false, if_true]
    rcases List.lookup "run" (pyDictMerge g d) with _ | v
    · exact lookup_dictSet_ne _ _ hk
    · cases v <;> exact lookup_dictSet_ne _ _ hk
  · intro hr
    have hre : r.isEmpty = false := by
      cases r with
      | nil => exact absurd rfl hr
      | cons a l => rfl
    unfold combineExtraMd
    rw [hre, if_pos (by simp)]
    rcases hlk : List.lookup "run" (pyDictMerge g d) with _ | v
    · show List.lookup "run" (dictSet (pyDictMerge g d) "run" (MVal.dict r))
        = some (MVal.dict r)
      exact lookup_dictSet _ _ _
    · cases v with
      | dict ex =>
        show List.lookup "run" (dictSet (pyDictMerge g d) "run"
            (MVal.dict (pyDictMerge ex r))) = some (MVal.dict (pyDictMerge ex r))
        exact lookup_dictSet _ _ _
      | bool b =>
        show List.lookup "run" (dictSet (pyDictMerge g d) "run" (MVal.dict r))
          = some (MVal.dict r)
        exact lookup_dictSet _ _ _
      | int n =>
        show List.lookup "run" (dictSet (pyDictMerge g d) "run" (MVal.dict r))
          = some (MVal.dict r)
        exact lookup_dictSet _ _ _
      | str s =>
        show List.lookup "run" (dictSet (pyDictMerge g d) "run" (MVal.dict r))
          = some (MVal.dict r)
        exact lookup_dictSet _ _ _
  · intro dataset_name records shard_size f tag pcfg dcfg run_md hdol nm chunk
      hmem doc hdoc
    refine processStreamLoop_shards_pred
      (fun rc => process_doc f tag pcfg (_build_doc dataset_name rc dcfg
        (combineExtraMd pcfg.metadata dcfg.metadata run_md)))
      shard_size
      (fun dd => dd.metadata = combineExtraMd pcfg.metadata dcfg.metadata run_md)
      records [] 0 0 [] (by simp) (by simp) ?_ nm chunk hmem doc hdoc
    intro rc _
    rw [process_doc_metadata_of_dolma_off f tag pcfg _ hdol]
    show (if (combineExtraMd pcfg.metadata dcfg.metadata run_md).isEmpty
        then ([] : MDict)
        else combineExtraMd pcfg.metadata dcfg.metadata run_md)
      = combineExtraMd pcfg.metadata dcfg.metadata run_md
    exact isEmpty_if_collapse _

/-- Witness for C9: the nodup-keys merge rule at a concrete key, the run
attachment, and a two-record stream whose documents all carry the combined
metadata. -/
theorem claim_C9_metadata_merge_witness :
    (([("b", MVal.int 2), ("c", MVal.int 3)].map
        (Prod.fst (α := String) (β := MVal))).Nodup
      ∧ List.lookup "b" (pyDictMerge [("a", MVal.int 1), ("b", MVal.int 1)]
          [("b", MVal.int 2), ("c", MVal.int 3)])
        = (List.lookup "b" [("b", MVal.int 2), ("c", MVal.int 3)]).or
            (List.lookup "b" [("a", MVal.int 1), ("b", MVal.int 1)]))
    ∧ (([("run_id", MVal.str "X")] : MDict) ≠ []
      ∧ List.lookup "run" (combineExtraMd [("a", MVal.int 1), ("b", MVal.int 1)]
          [("b", MVal.int 2), ("c", MVal.int 3)] [("run_id", MVal.str "X")])
        = some (MVal.dict (match List.lookup "run"
            (pyDictMerge [("a", MVal.int 1), ("b", MVal.int 1)]
              [("b", MVal.int 2), ("c", MVal.int 3)]) with
            | some (MVal.dict existing) =>
              pyDictMerge existing [("run_id", MVal.str "X")]
            | _ => [("run_id", MVal.str "X")])))
    ∧ (({} : ProcessingCfg).dolma_toolkit.enabled = false
      ∧ ∀ nm chunk, (nm, chunk) ∈ (process_stream "ds"
            [[("id", PVal.str "a")], [("id", PVal.str "b")]] 10000
            (fun _ s => s) (fun _ _ _ _ => Except.ok []) {}
            { metadata := [("b", MVal.int 2), ("c", MVal.int 3)] }
            [("run_id", MVal.str "X")]).shards →
          ∀ doc ∈ chunk, doc.metadata
            = combineExtraMd ({} : ProcessingCfg).metadata
                [("b", MVal.int 2), ("c", MVal.int 3)]
                [("run_id", MVal.str "X")]) := by
  refine ⟨⟨by decide, ?_⟩, ⟨(by intro h; cases h), ?_⟩, ⟨rfl, ?_⟩⟩
  · exact (claim_C9_metadata_merge [("a", MVal.int 1), ("b", MVal.int 1)]
      [("b", MVal.int 2), ("c", MVal.int 3)] []).1 "b" (by decide)
  · exact (claim_C9_metadata_merge [("a", MVal.int 1), ("b", MVal.int 1)]
      [("b", MVal.int 2), ("c", MVal.int 3)] [("run_id", MVal.str "X")]).2.2.2.1
      (by intro h; cases h)
  · exact (claim_C9_metadata_merge [] [] []).2.2.2.2.2 "ds"
      [[("id", PVal.str "a")], [("id", PVal.str "b")]] 10000
      (fun _ s => s) (fun _ _ _ _ => Except.ok []) {}
      { metadata := [("b", MVal.int 2), ("c", MVal.int 3)] }
      [("run_id", MVal.str "X")] rfl

/-- C7 counterexample: with the Unicode-normalization step instantiated to the
NFC model `nfcModelE` (which agrees with real NFC on the strings involved:
a NUL starter blocks canonical composition of `e` + U+0301, and without the
NUL they compose to `é`), `normalize_text` is *not* idempotent on the text
`"e\x00́"`: the first pass strips the NUL after normalizing, so the
second pass composes what the first could not.  This holds for both values of
`collapse_whitespace`. -/
theorem claim_C7_counterexample :
    normalize_text (fun _ => nfcModelE) "NFC" true
        (normalize_text (fun _ => nfcModelE) "NFC" true
          ['e', nulChar, Char.ofNat 0x301])
      ≠ normalize_text (fun _ => nfcModelE) "NFC" true
          ['e', nulChar, Char.ofNat 0x301]
    ∧ normalize_text (fun _ => nfcModelE) "NFC" false
        (normalize_text (fun _ => nfcModelE) "NFC" false
          ['e', nulChar, Char.ofNat 0x301])
      ≠ normalize_text (fun _ => nfcModelE) "NFC" false
          ['e', nulChar, Char.ofNat 0x301] := by
  constructor <;> decide

/-- C7 amended: `normalize_text` is idempotent for every text and both values
of `collapse_whitespace` *provided* the Unicode-normalization step fixes
`normalize_text`'s own outputs — true in particular whenever `unicode_form`
is empty or `"none"` (case-insensitively), where the step is skipped; with
genuine NFC the proviso can fail when a NUL separates a base character from a
combining mark, as the counterexample shows. -/
theorem claim_C7_amended (f : String → List Char → List Char) (form : String)
    (c : Bool) (t : List Char)
    (H : ∀ s : List Char,
      unormStep f form (normalize_text f form c s) = normalize_text f form c s) :
    normalize_text f form c (normalize_text f form c t)
      = normalize_text f form c t :=
  normalize_text_idem_of_unorm_fix f form c t H

/-- Witness for C7 amended: with `unicode_form = "none"` the normalization
step is skipped, the proviso holds definitionally, and a doubly whitespaced
text normalizes idempotently. -/
theorem claim_C7_amended_witness :
    (∀ s : List Char, unormStep (fun _ => nfcModelE) "none"
        (normalize_text (fun _ => nfcModelE) "none" true s)
      = normalize_text (fun _ => nfcModelE) "none" true s)
    ∧ normalize_text (fun _ => nfcModelE) "none" true
        (normalize_text (fun _ => nfcModelE) "none" true "a \t b ".toList)
      = normalize_text (fun _ => nfcModelE) "none" true "a \t b ".toList :=
  ⟨fun _ => rfl,
   claim_C7_amended (fun _ => nfcModelE) "none" true "a \t b ".toList
     (fun _ => rfl)⟩
